import Mathlib

/-!
# Verification of the travel-entry storage component

A shallow embedding of `src/components/utilities/storage.ts` together with the
`TravelEntry` type from `src/components/types`.  JavaScript runtime values that
may flow through the validator are modelled by `JValue`; the asynchronous
key-value store (`AsyncStorage`) is modelled by an explicit state carrying the
stored payload, a schedule of injected storage failures, and an oracle for the
identifiers generated on id collision.  Exceptions are modelled with `Except`;
each exported operation wraps its body exactly as the source wraps it in
`try`/`catch`.
-/

/-- A JavaScript runtime value, as far as the storage component can observe it.
`undefined` models the JavaScript value `undefined`. -/
inductive JValue where
  | undefined : JValue
  | null : JValue
  | bool (b : Bool) : JValue
  | num (n : Int) : JValue
  | str (s : String) : JValue
  | arr (elems : List JValue) : JValue
  | obj (fields : List (String × JValue)) : JValue
deriving Repr

/-- JavaScript `typeof`. Note `typeof null` is `"object"`, as is `typeof` of an
array. -/
def typeof : JValue → String
  | .undefined => "undefined"
  | .null => "object"
  | .bool _ => "boolean"
  | .num _ => "number"
  | .str _ => "string"
  | .arr _ => "object"
  | .obj _ => "object"

/-- JavaScript truthiness of a value. -/
def truthy : JValue → Bool
  | .undefined => false
  | .null => false
  | .bool b => b
  | .num n => n != 0
  | .str s => s != ""
  | .arr _ => true
  | .obj _ => true

/-- Look a key up in an object's field list (first binding wins, matching
JavaScript property access on objects built by `JSON.parse`). -/
def lookupField : List (String × JValue) → String → JValue
  | [], _ => .undefined
  | (k, v) :: rest, key => if k == key then v else lookupField rest key

/-- JavaScript property read `v[key]`; a missing property reads as
`undefined`, and named properties of non-objects read as `undefined`. -/
def getField (v : JValue) (key : String) : JValue :=
  match v with
  | .obj fields => lookupField fields key
  | _ => .undefined

/-- Replace the first binding of `key` (or append one), modelling the
JavaScript assignment `o[key] = v`. -/
def setAssoc : List (String × JValue) → String → JValue → List (String × JValue)
  | [], key, v => [(key, v)]
  | (k, w) :: rest, key, v =>
    if k == key then (key, v) :: rest else (k, w) :: setAssoc rest key v

/-- JavaScript property write on an object; a no-op on non-objects. -/
def setField (o : JValue) (key : String) (v : JValue) : JValue :=
  match o with
  | .obj fields => .obj (setAssoc fields key v)
  | _ => o

/-- Whether a value is the JavaScript `undefined`. -/
def isUndef : JValue → Bool
  | .undefined => true
  | _ => false

/-- `Array.isArray`. -/
def isArr : JValue → Bool
  | .arr _ => true
  | _ => false

/-- The underlying string of a string value (defaults to `""`). -/
def getStr : JValue → String
  | .str s => s
  | _ => ""

/-- The underlying number of a numeric value (defaults to `0`). -/
def getNum : JValue → Int
  | .num n => n
  | _ => 0

/-- The `id` field of an entry, as a string.  On validated entries the field
is always a string, so the default never fires there. -/
def idOf (e : JValue) : String := getStr (getField e "id")

/-- The `createdAt` field of an entry, as a number. -/
def createdAtOf (e : JValue) : Int := getNum (getField e "createdAt")

mutual
/-- No `undefined` occurs anywhere inside the value.  `JSON.parse` output
always satisfies this. -/
def noUndef : JValue → Bool
  | .undefined => false
  | .null => true
  | .bool _ => true
  | .num _ => true
  | .str _ => true
  | .arr xs => noUndefElems xs
  | .obj fs => noUndefFields fs

def noUndefElems : List JValue → Bool
  | [] => true
  | v :: vs => noUndef v && noUndefElems vs

def noUndefFields : List (String × JValue) → Bool
  | [] => true
  | (_, v) :: fs => noUndef v && noUndefFields fs
end

mutual
/-- The value-level effect of `JSON.parse(JSON.stringify(·))`: object fields
holding `undefined` are dropped, `undefined` array elements become `null`. -/
def jNorm : JValue → JValue
  | .undefined => .undefined
  | .null => .null
  | .bool b => .bool b
  | .num n => .num n
  | .str s => .str s
  | .arr xs => .arr (jNormElems xs)
  | .obj fs => .obj (jNormFields fs)

def jNormElems : List JValue → List JValue
  | [] => []
  | v :: vs => (if isUndef v then .null else jNorm v) :: jNormElems vs

def jNormFields : List (String × JValue) → List (String × JValue)
  | [] => []
  | (k, v) :: fs =>
    if isUndef v then jNormFields fs else (k, jNorm v) :: jNormFields fs
end

/-- The required-field table of `validateEntry` (name, expected `typeof`). -/
def requiredFields : List (String × String) :=
  [("id", "string"), ("imageUri", "string"), ("address", "string"),
   ("latitude", "number"), ("longitude", "number"), ("createdAt", "number")]

/-- `validateEntry` from `storage.ts`: guard against falsy and non-object
values, check the six required fields by `typeof`, then check each optional
field only when it is present. -/
def validateEntry (entry : JValue) : Bool :=
  if !truthy entry || typeof entry != "object" then false
  else if requiredFields.any (fun f => typeof (getField entry f.1) != f.2) then false
  else if !isUndef (getField entry "title") && typeof (getField entry "title") != "string" then false
  else if !isUndef (getField entry "notes") && typeof (getField entry "notes") != "string" then false
  else if !isUndef (getField entry "tags") && !isArr (getField entry "tags") then false
  else if !isUndef (getField entry "weather") && typeof (getField entry "weather") != "object" then false
  else true

/-- `validateEntries` from `storage.ts`: the collection validator — reject
non-arrays, otherwise require every element to pass `validateEntry`. -/
def validateEntries : JValue → Bool
  | .arr entries => entries.all validateEntry
  | _ => false

/-- The raw payload stored under the entries key: either a string that is not
valid JSON (so `JSON.parse` throws on it), or the parsed JSON value. -/
inductive RawData where
  | text (s : String) : RawData
  | json (v : JValue) : RawData
deriving Repr

/-- `JSON.stringify` of a value about to be written: the reader will observe
the normalised value. -/
def stringify (v : JValue) : RawData := .json (jNorm v)

/-- The environment of the storage component: the payload stored under the
entries key, a schedule of injected failures for the underlying asynchronous
get/set/remove calls (`true` = that call rejects; an exhausted schedule means
all later calls succeed), and the oracle for generated ids, consumed at
`idCount`. -/
structure KVState where
  contents : Option RawData
  failures : List Bool
  idGen : Nat → String
  idCount : Nat

/-- Consume the next scheduled outcome for a storage call. -/
def popFail (s : KVState) : Bool × KVState :=
  (s.failures.headD false, { s with failures := s.failures.tail })

/-- Generate the next collision-replacement id (`Date.now` plus
`Math.random`, modelled as an oracle). -/
def nextFreshId (s : KVState) : String × KVState :=
  (s.idGen s.idCount, { s with idCount := s.idCount + 1 })

/-- Errors that can be thrown inside the component. -/
inductive StErr where
  | invalidEntry : StErr
  | invalidId : StErr
  | storage : StErr
  | parse : StErr
deriving Repr

/-- `AsyncStorage.getItem` on the entries key. -/
def getItem (s : KVState) : Except StErr (Option RawData) × KVState :=
  match popFail s with
  | (true, s₁) => (.error .storage, s₁)
  | (false, s₁) => (.ok s₁.contents, s₁)

/-- `AsyncStorage.setItem` on the entries key. -/
def setItem (v : RawData) (s : KVState) : Except StErr Unit × KVState :=
  match popFail s with
  | (true, s₁) => (.error .storage, s₁)
  | (false, s₁) => (.ok (), { s₁ with contents := some v })

/-- `AsyncStorage.removeItem` on the entries key. -/
def removeItem (s : KVState) : Except StErr Unit × KVState :=
  match popFail s with
  | (true, s₁) => (.error .storage, s₁)
  | (false, s₁) => (.ok (), { s₁ with contents := none })

/-- The element list of an array value. -/
def jArrElems : JValue → List JValue
  | .arr l => l
  | _ => []

/-- Stable insertion keeping the list sorted by `createdAt` descending;
together with `sortEntries` this models the comparator
`(a, b) => b.createdAt - a.createdAt`. -/
def insertByCreatedAt (e : JValue) : List JValue → List JValue
  | [] => [e]
  | x :: xs =>
    if createdAtOf x ≤ createdAtOf e then e :: x :: xs
    else x :: insertByCreatedAt e xs

/-- Sort by `createdAt` descending (newest first), stably. -/
def sortEntries (l : List JValue) : List JValue := l.foldr insertByCreatedAt []

/-- Body of `getEntries` (inside its `try`): fetch the raw string, return `[]`
when absent, parse it (throwing on bad JSON), reject the whole collection if
`validateEntries` fails, and sort by creation date, newest first. -/
def getEntriesE (s : KVState) : Except StErr (List JValue) × KVState :=
  match getItem s with
  | (.error e, s₁) => (.error e, s₁)
  | (.ok none, s₁) => (.ok [], s₁)
  | (.ok (some (.text _)), s₁) => (.error .parse, s₁)
  | (.ok (some (.json v)), s₁) =>
    if validateEntries v then (.ok (sortEntries (jArrElems v)), s₁)
    else (.ok [], s₁)

/-- Exported `getEntries`: the `catch` clause returns the empty list. -/
def getEntries (s : KVState) : List JValue × KVState :=
  match getEntriesE s with
  | (.ok l, s₁) => (l, s₁)
  | (.error _, s₁) => ([], s₁)

/-- Body of `saveEntry` (inside its `try`).  The middle component of the
result is the caller's entry object, whose `id` field the source mutates in
place on collision; it is threaded through like the state so the caller-visible
mutation is preserved on every path. -/
def saveEntryE (entry : JValue) (s : KVState) :
    Except StErr Bool × JValue × KVState :=
  if !validateEntry entry then (.error .invalidEntry, entry, s)
  else
    match getEntries s with
    | (existingEntries, s₁) =>
      match
        (if existingEntries.any (fun e => idOf e == idOf entry) then
          match nextFreshId s₁ with
          | (fresh, s₂) => (setField entry "id" (.str fresh), s₂)
        else (entry, s₁)) with
      | (entry₁, s₂) =>
        match setItem (stringify (.arr (existingEntries ++ [entry₁]))) s₂ with
        | (.error e, s₃) => (.error e, entry₁, s₃)
        | (.ok _, s₃) =>
          match getEntries s₃ with
          | (currentEntries, s₄) =>
            if !currentEntries.any (fun e => idOf e == idOf entry₁) then
              (.ok false, entry₁, s₄)
            else (.ok true, entry₁, s₄)

/-- Exported `saveEntry`: the `catch` clause returns `false`. -/
def saveEntry (entry : JValue) (s : KVState) : Bool × JValue × KVState :=
  match saveEntryE entry s with
  | (.ok b, e₁, s₁) => (b, e₁, s₁)
  | (.error _, e₁, s₁) => (false, e₁, s₁)

/-- Body of `getEntryById` (inside its `try`): `find` on the read result,
with `entry || null` collapsing a missed lookup to an absent value. -/
def getEntryByIdE (id : String) (s : KVState) :
    Except StErr (Option JValue) × KVState :=
  match getEntries s with
  | (entries, s₁) => (.ok (entries.find? (fun e => idOf e == id)), s₁)

/-- Exported `getEntryById`: the `catch` clause returns the absent value. -/
def getEntryById (id : String) (s : KVState) : Option JValue × KVState :=
  match getEntryByIdE id s with
  | (.ok r, s₁) => (r, s₁)
  | (.error _, s₁) => (none, s₁)

/-- Body of `removeEntry` (inside its `try`): reject a falsy id, report
not-found without writing, otherwise filter the id out, write back, and
confirm absence on a verification re-read. -/
def removeEntryE (id : String) (s : KVState) : Except StErr Bool × KVState :=
  if id == "" then (.error .invalidId, s)
  else
    match getEntries s with
    | (existingEntries, s₁) =>
      if !existingEntries.any (fun e => idOf e == id) then (.ok false, s₁)
      else
        match setItem (stringify (.arr (existingEntries.filter (fun e => idOf e != id)))) s₁ with
        | (.error e, s₂) => (.error e, s₂)
        | (.ok _, s₂) =>
          match getEntries s₂ with
          | (currentEntries, s₃) =>
            if currentEntries.any (fun e => idOf e == id) then (.ok false, s₃)
            else (.ok true, s₃)

/-- Exported `removeEntry`: the `catch` clause returns `false`. -/
def removeEntry (id : String) (s : KVState) : Bool × KVState :=
  match removeEntryE id s with
  | (.ok b, s₁) => (b, s₁)
  | (.error _, s₁) => (false, s₁)

/-- Body of `updateEntry` (inside its `try`): validate, locate the record by
id, replace it wholesale, write back, and confirm on a verification re-read
that a record with matching id and `createdAt` exists. -/
def updateEntryE (updatedEntry : JValue) (s : KVState) :
    Except StErr Bool × KVState :=
  if !validateEntry updatedEntry then (.error .invalidEntry, s)
  else
    match getEntries s with
    | (existingEntries, s₁) =>
      match existingEntries.findIdx? (fun e => idOf e == idOf updatedEntry) with
      | none => (.ok false, s₁)
      | some entryIndex =>
        match setItem (stringify (.arr (existingEntries.set entryIndex updatedEntry))) s₁ with
        | (.error e, s₂) => (.error e, s₂)
        | (.ok _, s₂) =>
          match getEntries s₂ with
          | (currentEntries, s₃) =>
            if !currentEntries.any (fun e =>
                idOf e == idOf updatedEntry &&
                createdAtOf e == createdAtOf updatedEntry) then
              (.ok false, s₃)
            else (.ok true, s₃)

/-- Exported `updateEntry`: the `catch` clause returns `false`. -/
def updateEntry (updatedEntry : JValue) (s : KVState) : Bool × KVState :=
  match updateEntryE updatedEntry s with
  | (.ok b, s₁) => (b, s₁)
  | (.error _, s₁) => (false, s₁)

/-- Body of `clearAllEntries` (inside its `try`): remove the key, then confirm
on a verification re-read that the collection is empty. -/
def clearAllEntriesE (s : KVState) : Except StErr Bool × KVState :=
  match removeItem s with
  | (.error e, s₁) => (.error e, s₁)
  | (.ok _, s₁) =>
    match getEntries s₁ with
    | (currentEntries, s₂) =>
      if currentEntries.length > 0 then (.ok false, s₂) else (.ok true, s₂)

/-- Exported `clearAllEntries`: the `catch` clause returns `false`. -/
def clearAllEntries (s : KVState) : Bool × KVState :=
  match clearAllEntriesE s with
  | (.ok b, s₁) => (b, s₁)
  | (.error _, s₁) => (false, s₁)

/-- Body of `getEntryCount` (inside its `try`). -/
def getEntryCountE (s : KVState) : Except StErr Nat × KVState :=
  match getEntries s with
  | (entries, s₁) => (.ok entries.length, s₁)

/-- Exported `getEntryCount`: the `catch` clause returns `0`. -/
def getEntryCount (s : KVState) : Nat × KVState :=
  match getEntryCountE s with
  | (.ok n, s₁) => (n, s₁)
  | (.error _, s₁) => (0, s₁)

/-- Body of `debugStorage` (inside its `try`): a read-only diagnostic that
only logs; its sole effect here is the read. -/
def debugStorageE (s : KVState) : Except StErr Unit × KVState :=
  match getEntries s with
  | (_, s₁) => (.ok (), s₁)

/-- Exported `debugStorage`. -/
def debugStorage (s : KVState) : Unit × KVState :=
  match debugStorageE s with
  | (.ok _, s₁) => ((), s₁)
  | (.error _, s₁) => ((), s₁)

/-- The collection as persisted: the element list when the stored payload is a
JSON array, and the empty list otherwise. -/
def storedList (s : KVState) : List JValue :=
  match s.contents with
  | some (.json (.arr l)) => l
  | _ => []

/-- The ids of the persisted collection. -/
def storedIds (s : KVState) : List String := (storedList s).map idOf

/-- The ids of the collection as the component reads it. -/
def readIds (s : KVState) : List String := (getEntries s).1.map idOf

/-- The stored payload, if it is a JSON value, contains no `undefined` —
true of anything `JSON.parse` can produce. -/
def storedNoUndef (s : KVState) : Bool :=
  match s.contents with
  | some (.json v) => noUndef v
  | _ => true

/-- Whether an `Except` is an error. -/
def isErr : Except StErr α → Bool
  | .error _ => true
  | .ok _ => false

/-- A concrete well-formed entry used to exercise the theorems. -/
def sampleEntry (id : String) (created : Int) : JValue :=
  .obj [("id", .str id), ("imageUri", .str "file:///img.jpg"),
        ("address", .str "somewhere"), ("latitude", .num 1),
        ("longitude", .num 2), ("createdAt", .num created)]

/-- A fixed id-generation oracle for concrete runs. -/
def sampleGen : Nat → String := fun _ => "generated-id"

/-- A concrete storage state holding the given entries, with no injected
storage failures. -/
def sampleState (l : List JValue) : KVState := ⟨some (.json (.arr l)), [], sampleGen, 0⟩

/-- A concrete storage state with nothing stored under the key. -/
def emptyState : KVState := ⟨none, [], sampleGen, 0⟩

/-! ## Sorting lemmas -/

/-- The read order: sorted by `createdAt` descending. -/
def SortedByCreatedAtDesc (l : List JValue) : Prop :=
  List.Pairwise (fun a b => createdAtOf b ≤ createdAtOf a) l

theorem insertByCreatedAt_perm (e : JValue) (l : List JValue) :
    (insertByCreatedAt e l).Perm (e :: l) := by
  induction l with
  | nil => simp [insertByCreatedAt]
  | cons x xs ih =>
    simp only [insertByCreatedAt]
    split
    · exact List.Perm.refl _
    · exact ((ih.cons x).trans (List.Perm.swap e x xs))

theorem sortEntries_perm (l : List JValue) : (sortEntries l).Perm l := by
  induction l with
  | nil => simp [sortEntries]
  | cons x xs ih =>
    have h : sortEntries (x :: xs) = insertByCreatedAt x (sortEntries xs) := rfl
    rw [h]
    exact (insertByCreatedAt_perm x (sortEntries xs)).trans (ih.cons x)

theorem mem_sortEntries {x : JValue} {l : List JValue} :
    x ∈ sortEntries l ↔ x ∈ l :=
  (sortEntries_perm l).mem_iff

theorem insertByCreatedAt_sorted {e : JValue} {l : List JValue}
    (h : SortedByCreatedAtDesc l) :
    SortedByCreatedAtDesc (insertByCreatedAt e l) := by
  induction l with
  | nil => simp [insertByCreatedAt, SortedByCreatedAtDesc]
  | cons x xs ih =>
    simp only [insertByCreatedAt]
    rcases h with - | ⟨hx, hxs⟩
    split
    · rename_i hle
      refine List.Pairwise.cons ?_ (List.Pairwise.cons hx hxs)
      intro b hb
      rcases List.mem_cons.mp hb with rfl | hb
      · exact hle
      · exact le_trans (hx b hb) hle
    · rename_i hgt
      push_neg at hgt
      refine List.Pairwise.cons ?_ (ih hxs)
      intro b hb
      have hb' := (insertByCreatedAt_perm e xs).mem_iff.mp hb
      rcases List.mem_cons.mp hb' with rfl | hb'
      · exact le_of_lt hgt
      · exact hx b hb'

theorem sortEntries_sorted (l : List JValue) :
    SortedByCreatedAtDesc (sortEntries l) := by
  induction l with
  | nil => simp [sortEntries, SortedByCreatedAtDesc]
  | cons x xs ih => exact insertByCreatedAt_sorted ih

/-! ## Lemmas about `jNorm` and `noUndef` -/

theorem isUndef_eq_false_of_noUndef {v : JValue} (h : noUndef v = true) :
    isUndef v = false := by
  cases v <;> first | rfl | simp [noUndef] at h

mutual
theorem jNorm_of_noUndef (v : JValue) (h : noUndef v = true) : jNorm v = v := by
  cases v with
  | undefined => simp [noUndef] at h
  | null => rfl
  | bool b => rfl
  | num n => rfl
  | str s => rfl
  | arr xs =>
    have : jNormElems xs = xs := jNormElems_of_noUndef xs (by simpa [noUndef] using h)
    simp [jNorm, this]
  | obj fs =>
    have : jNormFields fs = fs := jNormFields_of_noUndef fs (by simpa [noUndef] using h)
    simp [jNorm, this]

theorem jNormElems_of_noUndef (l : List JValue) (h : noUndefElems l = true) :
    jNormElems l = l := by
  cases l with
  | nil => rfl
  | cons v vs =>
    simp only [noUndefElems, Bool.and_eq_true] at h
    have hv : isUndef v = false := isUndef_eq_false_of_noUndef h.1
    simp [jNormElems, hv, jNorm_of_noUndef v h.1, jNormElems_of_noUndef vs h.2]

theorem jNormFields_of_noUndef (fs : List (String × JValue)) (h : noUndefFields fs = true) :
    jNormFields fs = fs := by
  cases fs with
  | nil => rfl
  | cons kv rest =>
    match kv with
    | (k, v) =>
      simp only [noUndefFields, Bool.and_eq_true] at h
      have hv : isUndef v = false := isUndef_eq_false_of_noUndef h.1
      simp [jNormFields, hv, jNorm_of_noUndef v h.1, jNormFields_of_noUndef rest h.2]
end

theorem noUndefElems_iff {l : List JValue} :
    noUndefElems l = true ↔ ∀ x ∈ l, noUndef x = true := by
  induction l with
  | nil => simp [noUndefElems]
  | cons v vs ih => simp [noUndefElems, ih]

theorem isUndef_iff {v : JValue} : isUndef v = true ↔ v = .undefined := by
  cases v <;> simp [isUndef]

theorem validateEntry_eq (e : JValue) : validateEntry e =
    (!(!truthy e || typeof e != "object") &&
     !(requiredFields.any fun f => typeof (getField e f.1) != f.2) &&
     !(!isUndef (getField e "title") && typeof (getField e "title") != "string") &&
     !(!isUndef (getField e "notes") && typeof (getField e "notes") != "string") &&
     !(!isUndef (getField e "tags") && !isArr (getField e "tags")) &&
     !(!isUndef (getField e "weather") && typeof (getField e "weather") != "object")) := by
  unfold validateEntry
  cases h1 : (!truthy e || typeof e != "object") <;>
    cases h2 : (requiredFields.any fun f => typeof (getField e f.1) != f.2) <;>
    cases h3 : (!isUndef (getField e "title") && typeof (getField e "title") != "string") <;>
    cases h4 : (!isUndef (getField e "notes") && typeof (getField e "notes") != "string") <;>
    cases h5 : (!isUndef (getField e "tags") && !isArr (getField e "tags")) <;>
    cases h6 : (!isUndef (getField e "weather") && typeof (getField e "weather") != "object") <;>
    simp [h1, h2, h3, h4, h5, h6]

/-- Spec rendering (§4.1): the six required fields are present with the
correct primitive kind. -/
def RequiredOk (v : JValue) : Prop :=
  typeof (getField v "id") = "string" ∧
  typeof (getField v "imageUri") = "string" ∧
  typeof (getField v "address") = "string" ∧
  typeof (getField v "latitude") = "number" ∧
  typeof (getField v "longitude") = "number" ∧
  typeof (getField v "createdAt") = "number"

/-- Spec rendering (§4.1): each optional field that is present matches its
shape; absence is always valid. -/
def OptionalOk (v : JValue) : Prop :=
  (getField v "title" ≠ .undefined → typeof (getField v "title") = "string") ∧
  (getField v "notes" ≠ .undefined → typeof (getField v "notes") = "string") ∧
  (getField v "tags" ≠ .undefined → isArr (getField v "tags") = true) ∧
  (getField v "weather" ≠ .undefined → typeof (getField v "weather") = "object")

/-- Spec rendering (§4.1): a structured (object) value whose required fields
have the right primitive kinds and whose present optional fields match their
shapes. -/
def ValidEntrySpec (v : JValue) : Prop :=
  (∃ fs, v = .obj fs) ∧ RequiredOk v ∧ OptionalOk v

theorem isUndef_eq_false {v : JValue} : isUndef v = false ↔ v ≠ .undefined := by
  cases v <;> simp [isUndef]

theorem bnot_eq_false_iff {b : Bool} : ((!b) = false) ↔ b = true := by
  cases b <;> simp

theorem typeof_obj (fs : List (String × JValue)) : typeof (.obj fs) = "object" := rfl

theorem truthy_obj (fs : List (String × JValue)) : truthy (.obj fs) = true := rfl

theorem validateEntry_iff (v : JValue) :
    validateEntry v = true ↔ ValidEntrySpec v := by
  rw [validateEntry_eq]
  cases v with
  | obj fs =>
    simp only [ValidEntrySpec, RequiredOk, OptionalOk, requiredFields,
      List.any_cons, List.any_nil, truthy_obj, typeof_obj, Bool.and_eq_true,
      Bool.not_eq_true', Bool.or_eq_false_iff, Bool.and_eq_false_iff,
      Bool.not_eq_false, bne_eq_false_iff_eq, Bool.not_true, and_true, true_and,
      isUndef_iff, or_iff_not_imp_left, ne_eq, not_not, exists_eq_left,
      exists_apply_eq_apply, bnot_eq_false_iff, isUndef_eq_false]
    tauto
  | undefined => simp [truthy, ValidEntrySpec]
  | null => simp [truthy, ValidEntrySpec]
  | bool b =>
    constructor
    · intro h; cases b <;> simp_all [truthy, typeof]
    · rintro ⟨⟨fs, h⟩, -⟩; cases h
  | num n =>
    constructor
    · intro h; simp_all [truthy, typeof]
    · rintro ⟨⟨fs, h⟩, -⟩; cases h
  | str s =>
    constructor
    · intro h; simp_all [truthy, typeof]
    · rintro ⟨⟨fs, h⟩, -⟩; cases h
  | arr l =>
    constructor
    · intro h
      simp only [truthy, typeof, requiredFields, List.any_cons, List.any_nil,
        getField, Bool.and_eq_true, Bool.not_eq_true', Bool.or_eq_false_iff] at h
      simp [typeof] at h
    · rintro ⟨⟨fs, h⟩, -⟩; cases h

/-! ## Field lookup and mutation lemmas -/

theorem typeof_eq_string_inv {v : JValue} (h : typeof v = "string") :
    ∃ s, v = .str s := by
  cases v <;> simp [typeof] at h ⊢

theorem typeof_eq_number_inv {v : JValue} (h : typeof v = "number") :
    ∃ n, v = .num n := by
  cases v <;> simp [typeof] at h ⊢

theorem valid_is_obj {e : JValue} (hv : validateEntry e = true) :
    ∃ fs, e = .obj fs :=
  ((validateEntry_iff e).mp hv).1

theorem valid_id_str {e : JValue} (hv : validateEntry e = true) :
    ∃ s, getField e "id" = .str s :=
  typeof_eq_string_inv ((validateEntry_iff e).mp hv).2.1.1

theorem valid_createdAt_num {e : JValue} (hv : validateEntry e = true) :
    ∃ n, getField e "createdAt" = .num n :=
  typeof_eq_number_inv ((validateEntry_iff e).mp hv).2.1.2.2.2.2.2

theorem valid_isUndef_false {e : JValue} (hv : validateEntry e = true) :
    isUndef e = false := by
  obtain ⟨fs, rfl⟩ := valid_is_obj hv
  rfl

theorem lookupField_jNormFields {fs : List (String × JValue)} {k : String}
    (h : isUndef (lookupField fs k) = false) :
    lookupField (jNormFields fs) k = jNorm (lookupField fs k) := by
  induction fs with
  | nil => simp [lookupField, isUndef] at h
  | cons kv rest ih =>
    obtain ⟨k₁, v⟩ := kv
    by_cases hk : k₁ = k
    · subst hk
      simp only [lookupField, beq_self_eq_true, if_true] at h ⊢
      rw [jNormFields, if_neg (by simp [h])]
      simp [lookupField]
    · have hk' : (k₁ == k) = false := beq_eq_false_iff_ne.mpr hk
      simp only [lookupField, hk', Bool.false_eq_true, if_false] at h ⊢
      rw [jNormFields]
      by_cases hu : isUndef v = true
      · rw [if_pos hu]; exact ih h
      · rw [if_neg hu]
        simp only [lookupField, hk', Bool.false_eq_true, if_false]
        exact ih h

theorem getField_jNorm {fs : List (String × JValue)} {k : String}
    (h : isUndef (getField (JValue.obj fs) k) = false) :
    getField (jNorm (.obj fs)) k = jNorm (getField (.obj fs) k) := by
  simp only [getField, jNorm] at h ⊢
  exact lookupField_jNormFields h

theorem idOf_jNorm {e : JValue} (hv : validateEntry e = true) :
    idOf (jNorm e) = idOf e := by
  obtain ⟨fs, rfl⟩ := valid_is_obj hv
  obtain ⟨s, hs⟩ := valid_id_str hv
  have hu : isUndef (getField (JValue.obj fs) "id") = false := by
    rw [hs]; rfl
  rw [idOf, idOf, getField_jNorm hu, hs]
  rfl

theorem createdAtOf_jNorm {e : JValue} (hv : validateEntry e = true) :
    createdAtOf (jNorm e) = createdAtOf e := by
  obtain ⟨fs, rfl⟩ := valid_is_obj hv
  obtain ⟨n, hn⟩ := valid_createdAt_num hv
  have hu : isUndef (getField (JValue.obj fs) "createdAt") = false := by
    rw [hn]; rfl
  rw [createdAtOf, createdAtOf, getField_jNorm hu, hn]
  rfl

theorem map_idOf_jNormElems {l : List JValue}
    (h : ∀ x ∈ l, validateEntry x = true) :
    (jNormElems l).map idOf = l.map idOf := by
  induction l with
  | nil => rfl
  | cons x xs ih =>
    have hx := h x (List.mem_cons_self x xs)
    rw [jNormElems, if_neg (by simp [valid_isUndef_false hx])]
    simp only [List.map_cons]
    rw [idOf_jNorm hx, ih (fun y hy => h y (List.mem_cons_of_mem x hy))]

theorem lookupField_setAssoc_self (fs : List (String × JValue)) (k : String)
    (v : JValue) : lookupField (setAssoc fs k v) k = v := by
  induction fs with
  | nil => simp [setAssoc, lookupField]
  | cons kv rest ih =>
    obtain ⟨k₁, w⟩ := kv
    by_cases hk : k₁ = k
    · subst hk
      simp [setAssoc, lookupField]
    · have hk' : (k₁ == k) = false := beq_eq_false_iff_ne.mpr hk
      simp only [setAssoc, hk', Bool.false_eq_true, if_false, lookupField]
      exact ih

theorem lookupField_setAssoc_ne (fs : List (String × JValue)) {k k' : String}
    (v : JValue) (h : k ≠ k') :
    lookupField (setAssoc fs k v) k' = lookupField fs k' := by
  have h' : (k == k') = false := beq_eq_false_iff_ne.mpr h
  induction fs with
  | nil => simp [setAssoc, lookupField, h']
  | cons kv rest ih =>
    obtain ⟨k₁, w⟩ := kv
    by_cases hk : k₁ = k
    · subst hk
      simp [setAssoc, lookupField, h']
    · have hk' : (k₁ == k) = false := beq_eq_false_iff_ne.mpr hk
      simp only [setAssoc, hk', Bool.false_eq_true, if_false, lookupField]
      split <;> [rfl; exact ih]

theorem getField_setField_self (fs : List (String × JValue)) (k : String)
    (v : JValue) : getField (setField (.obj fs) k v) k = v := by
  simp only [setField, getField]
  exact lookupField_setAssoc_self fs k v

theorem getField_setField_ne (fs : List (String × JValue)) {k k' : String}
    (v : JValue) (h : k ≠ k') :
    getField (setField (.obj fs) k v) k' = getField (.obj fs) k' := by
  simp only [setField, getField]
  exact lookupField_setAssoc_ne fs v h

theorem noUndefFields_setAssoc {fs : List (String × JValue)} {k : String}
    {v : JValue} (hf : noUndefFields fs = true) (hv : noUndef v = true) :
    noUndefFields (setAssoc fs k v) = true := by
  induction fs with
  | nil => simp [setAssoc, noUndefFields, hv]
  | cons kv rest ih =>
    obtain ⟨k₁, w⟩ := kv
    simp only [noUndefFields, Bool.and_eq_true] at hf
    by_cases hk : k₁ = k
    · subst hk
      simp [setAssoc, noUndefFields, hv, hf.2]
    · have hk' : (k₁ == k) = false := beq_eq_false_iff_ne.mpr hk
      simp only [setAssoc, hk', Bool.false_eq_true, if_false, noUndefFields,
        Bool.and_eq_true]
      exact ⟨hf.1, ih hf.2⟩

theorem noUndef_setField {e v : JValue} {k : String}
    (he : noUndef e = true) (hv : noUndef v = true) :
    noUndef (setField e k v) = true := by
  cases e with
  | obj fs =>
    simp only [setField, noUndef] at he ⊢
    exact noUndefFields_setAssoc he hv
  | undefined => exact he
  | null => exact he
  | bool b => exact he
  | num n => exact he
  | str s => exact he
  | arr xs => exact he

theorem idOf_setField_id (fs : List (String × JValue)) (x : String) :
    idOf (setField (.obj fs) "id" (.str x)) = x := by
  rw [idOf, getField_setField_self]
  rfl

theorem validateEntry_setField_id {e : JValue} (x : String)
    (hv : validateEntry e = true) :
    validateEntry (setField e "id" (.str x)) = true := by
  obtain ⟨fs, rfl⟩ := valid_is_obj hv
  obtain ⟨-, hreq, hopt⟩ := (validateEntry_iff _).mp hv
  apply (validateEntry_iff _).mpr
  refine ⟨⟨setAssoc fs "id" (.str x), rfl⟩, ?_, ?_⟩
  · refine ⟨?_, ?_, ?_, ?_, ?_, ?_⟩
    · rw [getField_setField_self]; rfl
    · rw [getField_setField_ne fs _ (by decide)]; exact hreq.2.1
    · rw [getField_setField_ne fs _ (by decide)]; exact hreq.2.2.1
    · rw [getField_setField_ne fs _ (by decide)]; exact hreq.2.2.2.1
    · rw [getField_setField_ne fs _ (by decide)]; exact hreq.2.2.2.2.1
    · rw [getField_setField_ne fs _ (by decide)]; exact hreq.2.2.2.2.2
  · refine ⟨?_, ?_, ?_, ?_⟩ <;> rw [getField_setField_ne fs _ (by decide)]
    · exact hopt.1
    · exact hopt.2.1
    · exact hopt.2.2.1
    · exact hopt.2.2.2

theorem validateEntry_setField_address {e : JValue} (x : String)
    (hv : validateEntry e = true) :
    validateEntry (setField e "address" (.str x)) = true := by
  obtain ⟨fs, rfl⟩ := valid_is_obj hv
  obtain ⟨-, hreq, hopt⟩ := (validateEntry_iff _).mp hv
  apply (validateEntry_iff _).mpr
  refine ⟨⟨setAssoc fs "address" (.str x), rfl⟩, ?_, ?_⟩
  · refine ⟨?_, ?_, ?_, ?_, ?_, ?_⟩
    · rw [getField_setField_ne fs _ (by decide)]; exact hreq.1
    · rw [getField_setField_ne fs _ (by decide)]; exact hreq.2.1
    · rw [getField_setField_self]; rfl
    · rw [getField_setField_ne fs _ (by decide)]; exact hreq.2.2.2.1
    · rw [getField_setField_ne fs _ (by decide)]; exact hreq.2.2.2.2.1
    · rw [getField_setField_ne fs _ (by decide)]; exact hreq.2.2.2.2.2
  · refine ⟨?_, ?_, ?_, ?_⟩ <;> rw [getField_setField_ne fs _ (by decide)]
    · exact hopt.1
    · exact hopt.2.1
    · exact hopt.2.2.1
    · exact hopt.2.2.2

theorem idOf_setField_address {e : JValue} (v : JValue)
    (hv : validateEntry e = true) :
    idOf (setField e "address" v) = idOf e := by
  obtain ⟨fs, rfl⟩ := valid_is_obj hv
  rw [idOf, getField_setField_ne fs _ (by decide)]
  rfl

theorem createdAtOf_setField_address {e : JValue} (v : JValue)
    (hv : validateEntry e = true) :
    createdAtOf (setField e "address" v) = createdAtOf e := by
  obtain ⟨fs, rfl⟩ := valid_is_obj hv
  rw [createdAtOf, getField_setField_ne fs _ (by decide)]
  rfl

theorem getField_setField_address {e : JValue} (v : JValue)
    (hv : validateEntry e = true) :
    getField (setField e "address" v) "address" = v := by
  obtain ⟨fs, rfl⟩ := valid_is_obj hv
  exact getField_setField_self fs _ v

/-! ## Behaviour of the shared read path -/

theorem getEntries_snd (s : KVState) :
    (getEntries s).2 = { s with failures := s.failures.tail } := by
  obtain ⟨c, f, g, n⟩ := s
  cases f with
  | nil =>
    cases c with
    | none => rfl
    | some rd =>
      cases rd with
      | text t => rfl
      | json v =>
        by_cases hv : validateEntries v = true <;>
          simp [getEntries, getEntriesE, getItem, popFail, hv]
  | cons b t =>
    cases b with
    | true => rfl
    | false =>
      cases c with
      | none => rfl
      | some rd =>
        cases rd with
        | text s => rfl
        | json v =>
          by_cases hv : validateEntries v = true <;>
            simp [getEntries, getEntriesE, getItem, popFail, hv]

theorem getEntries_snd_of_failures_nil {s : KVState} (hf : s.failures = []) :
    (getEntries s).2 = s := by
  obtain ⟨c, f, g, n⟩ := s
  simp only at hf
  subst hf
  rw [getEntries_snd]
  rfl

theorem validateEntries_arr_inv {v : JValue} (hv : validateEntries v = true) :
    ∃ l, v = .arr l ∧ ∀ x ∈ l, validateEntry x = true := by
  cases v with
  | arr l =>
    refine ⟨l, rfl, ?_⟩
    simpa [validateEntries, List.all_eq_true] using hv
  | undefined => simp [validateEntries] at hv
  | null => simp [validateEntries] at hv
  | bool b => simp [validateEntries] at hv
  | num n => simp [validateEntries] at hv
  | str s => simp [validateEntries] at hv
  | obj fs => simp [validateEntries] at hv

theorem getEntries_fst_all_valid (s : KVState) :
    ∀ x ∈ (getEntries s).1, validateEntry x = true := by
  obtain ⟨c, f, g, n⟩ := s
  intro x hx
  rcases hb : List.headD f false with _ | _ <;>
  · cases c with
    | none => simp_all [getEntries, getEntriesE, getItem, popFail]
    | some rd =>
      cases rd with
      | text t => simp_all [getEntries, getEntriesE, getItem, popFail]
      | json v =>
        by_cases hv : validateEntries v = true
        · obtain ⟨l, rfl, hall⟩ := validateEntries_arr_inv hv
          simp only [getEntries, getEntriesE, getItem, popFail, hb, hv,
            if_true, jArrElems] at hx
          first
          | exact absurd hx (by simp)
          | exact hall x (mem_sortEntries.mp hx)
        · simp_all [getEntries, getEntriesE, getItem, popFail]

theorem getEntries_fst_all_noUndef {s : KVState} (hs : storedNoUndef s = true) :
    ∀ x ∈ (getEntries s).1, noUndef x = true := by
  obtain ⟨c, f, g, n⟩ := s
  intro x hx
  rcases hb : List.headD f false with _ | _ <;>
  · cases c with
    | none => simp_all [getEntries, getEntriesE, getItem, popFail]
    | some rd =>
      cases rd with
      | text t => simp_all [getEntries, getEntriesE, getItem, popFail]
      | json v =>
        by_cases hv : validateEntries v = true
        · obtain ⟨l, rfl, -⟩ := validateEntries_arr_inv hv
          simp only [storedNoUndef, noUndef] at hs
          simp only [getEntries, getEntriesE, getItem, popFail, hb, hv,
            if_true, jArrElems] at hx
          first
          | exact absurd hx (by simp)
          | exact noUndefElems_iff.mp hs x (mem_sortEntries.mp hx)
        · simp_all [getEntries, getEntriesE, getItem, popFail]

theorem getEntries_fst_empty_or_perm (s : KVState) :
    (getEntries s).1 = [] ∨ ((getEntries s).1).Perm (storedList s) := by
  obtain ⟨c, f, g, n⟩ := s
  have hcase : ∀ (f₁ : List Bool),
      (getEntries ⟨c, false :: f₁, g, n⟩).1 = [] ∨
        ((getEntries ⟨c, false :: f₁, g, n⟩).1).Perm
          (storedList ⟨c, false :: f₁, g, n⟩) := by
    intro f₁
    cases c with
    | none => exact Or.inl rfl
    | some rd =>
      cases rd with
      | text t => exact Or.inl rfl
      | json v =>
        by_cases hv : validateEntries v = true
        · obtain ⟨l, rfl, -⟩ := validateEntries_arr_inv hv
          refine Or.inr ?_
          have h1 : (getEntries ⟨some (.json (.arr l)), false :: f₁, g, n⟩).1 =
              sortEntries l := by
            simp [getEntries, getEntriesE, getItem, popFail, hv, jArrElems]
          rw [h1]
          exact sortEntries_perm l
        · refine Or.inl ?_
          simp [getEntries, getEntriesE, getItem, popFail, hv]
  cases f with
  | nil =>
    have h0 := hcase []
    -- an empty schedule behaves like an explicit leading success
    cases c with
    | none => exact Or.inl rfl
    | some rd =>
      cases rd with
      | text t => exact Or.inl rfl
      | json v =>
        by_cases hv : validateEntries v = true
        · obtain ⟨l, rfl, -⟩ := validateEntries_arr_inv hv
          refine Or.inr ?_
          have h1 : (getEntries ⟨some (.json (.arr l)), [], g, n⟩).1 =
              sortEntries l := by
            simp [getEntries, getEntriesE, getItem, popFail, hv, jArrElems]
          rw [h1]
          exact sortEntries_perm l
        · refine Or.inl ?_
          simp [getEntries, getEntriesE, getItem, popFail, hv]
  | cons b f₁ =>
    cases b with
    | true => exact Or.inl rfl
    | false => exact hcase f₁

theorem getEntries_fst_of_contents_none {s : KVState} (h : s.contents = none) :
    (getEntries s).1 = [] := by
  obtain ⟨c, f, g, n⟩ := s
  simp only at h
  subst h
  cases f with
  | nil => rfl
  | cons b f₁ => cases b <;> rfl

theorem getEntries_fst_of_text {s : KVState} {t : String}
    (h : s.contents = some (.text t)) : (getEntries s).1 = [] := by
  obtain ⟨c, f, g, n⟩ := s
  simp only at h
  subst h
  cases f with
  | nil => rfl
  | cons b f₁ => cases b <;> rfl

theorem getEntries_fst_of_invalid {s : KVState} {v : JValue}
    (h : s.contents = some (.json v)) (hv : validateEntries v = false) :
    (getEntries s).1 = [] := by
  obtain ⟨c, f, g, n⟩ := s
  simp only at h
  subst h
  cases f with
  | nil => simp [getEntries, getEntriesE, getItem, popFail, hv]
  | cons b f₁ =>
    cases b with
    | true => rfl
    | false => simp [getEntries, getEntriesE, getItem, popFail, hv]

theorem getEntries_fst_of_good {s : KVState} {l : List JValue}
    (h : s.contents = some (.json (.arr l)))
    (hv : validateEntries (.arr l) = true)
    (hok : s.failures.headD false = false) :
    (getEntries s).1 = sortEntries l := by
  obtain ⟨c, f, g, n⟩ := s
  simp only at h hok
  subst h
  cases f with
  | nil => simp [getEntries, getEntriesE, getItem, popFail, hv, jArrElems]
  | cons b f₁ =>
    cases b with
    | true => simp at hok
    | false => simp [getEntries, getEntriesE, getItem, popFail, hv, jArrElems]

theorem getEntries_good {s : KVState} {l : List JValue}
    (hf : s.failures = []) (h : s.contents = some (.json (.arr l)))
    (hv : validateEntries (.arr l) = true) :
    getEntries s = (sortEntries l, s) := by
  have h1 : (getEntries s).1 = sortEntries l :=
    getEntries_fst_of_good h hv (by rw [hf]; rfl)
  have h2 : (getEntries s).2 = s := getEntries_snd_of_failures_nil hf
  calc getEntries s = ((getEntries s).1, (getEntries s).2) := rfl
    _ = (sortEntries l, s) := by rw [h1, h2]

theorem getEntries_fresh (l : List JValue) (g : Nat → String) (n : Nat)
    (hv : validateEntries (.arr l) = true) :
    getEntries ⟨some (.json (.arr l)), [], g, n⟩ =
      (sortEntries l, ⟨some (.json (.arr l)), [], g, n⟩) :=
  getEntries_good rfl rfl hv

theorem getEntries_of_error {s s₁ : KVState} {err : StErr}
    (h : getEntriesE s = (.error err, s₁)) : getEntries s = ([], s₁) := by
  simp [getEntries, h]

theorem noUndefElems_append {l₁ l₂ : List JValue} (h₁ : ∀ x ∈ l₁, noUndef x = true)
    (h₂ : ∀ x ∈ l₂, noUndef x = true) : noUndefElems (l₁ ++ l₂) = true := by
  rw [noUndefElems_iff]
  intro x hx
  rcases List.mem_append.mp hx with h | h
  · exact h₁ x h
  · exact h₂ x h

theorem validateEntries_arr {l : List JValue} (h : ∀ x ∈ l, validateEntry x = true) :
    validateEntries (.arr l) = true := by
  simpa [validateEntries, List.all_eq_true] using h

theorem saveEntry_spec {e : JValue} {s : KVState}
    (hv : validateEntry e = true) (hnu : noUndef e = true)
    (hsnu : storedNoUndef s = true) (hf : s.failures = []) :
    saveEntry e s =
      (true,
       if (getEntries s).1.any (fun x => idOf x == idOf e) then
         setField e "id" (.str (s.idGen s.idCount)) else e,
       { contents := some (.json (.arr ((getEntries s).1 ++
           [if (getEntries s).1.any (fun x => idOf x == idOf e) then
              setField e "id" (.str (s.idGen s.idCount)) else e]))),
         failures := [],
         idGen := s.idGen,
         idCount := if (getEntries s).1.any (fun x => idOf x == idOf e) then
           s.idCount + 1 else s.idCount }) := by
  have hread : getEntries s = ((getEntries s).1, s) := by
    have h2 := getEntries_snd_of_failures_nil hf
    calc getEntries s = ((getEntries s).1, (getEntries s).2) := rfl
      _ = ((getEntries s).1, s) := by rw [h2]
  have hallv := getEntries_fst_all_valid s
  have hallnu := getEntries_fst_all_noUndef hsnu
  unfold saveEntry saveEntryE
  rw [hv]
  simp only [Bool.not_true, Bool.false_eq_true, if_false]
  rw [hread]
  by_cases hcol : ((getEntries s).1.any fun x => idOf x == idOf e) = true
  · simp only [hcol, if_true, nextFreshId]
    have he'nu : noUndef (setField e "id" (.str (s.idGen s.idCount))) = true :=
      noUndef_setField hnu rfl
    have he'v : validateEntry (setField e "id" (.str (s.idGen s.idCount))) = true :=
      validateEntry_setField_id _ hv
    have hnorm : jNorm (.arr ((getEntries s).1 ++
        [setField e "id" (.str (s.idGen s.idCount))])) =
        .arr ((getEntries s).1 ++ [setField e "id" (.str (s.idGen s.idCount))]) := by
      apply jNorm_of_noUndef
      show noUndefElems _ = true
      exact noUndefElems_append hallnu (by simp [he'nu])
    simp only [stringify, hnorm, setItem, popFail, hf, List.headD_nil, List.tail_nil]
    have hgood : getEntries
        ⟨some (.json (.arr ((getEntries s).1 ++
            [setField e "id" (.str (s.idGen s.idCount))]))), [],
          s.idGen, s.idCount + 1⟩ =
        (sortEntries ((getEntries s).1 ++
            [setField e "id" (.str (s.idGen s.idCount))]),
         ⟨some (.json (.arr ((getEntries s).1 ++
            [setField e "id" (.str (s.idGen s.idCount))]))), [],
          s.idGen, s.idCount + 1⟩) := by
      apply getEntries_good rfl rfl
      apply validateEntries_arr
      intro x hx
      rcases List.mem_append.mp hx with h | h
      · exact hallv x h
      · rw [List.mem_singleton.mp h]; exact he'v
    rw [hgood]
    have hany : (sortEntries ((getEntries s).1 ++
        [setField e "id" (.str (s.idGen s.idCount))])).any
          (fun x => idOf x == idOf (setField e "id" (.str (s.idGen s.idCount)))) = true := by
      apply List.any_eq_true.mpr
      exact ⟨_, mem_sortEntries.mpr (List.mem_append.mpr (Or.inr (List.mem_singleton.mpr rfl))), by simp⟩
    simp only [hany, Bool.not_true, Bool.false_eq_true, if_false]
  · rw [if_neg hcol]
    have hnorm : jNorm (.arr ((getEntries s).1 ++ [e])) =
        .arr ((getEntries s).1 ++ [e]) := by
      apply jNorm_of_noUndef
      show noUndefElems _ = true
      exact noUndefElems_append hallnu (by simp [hnu])
    simp only [stringify, hnorm, setItem, popFail, hf, List.headD_nil, List.tail_nil]
    have hgood : getEntries
        ⟨some (.json (.arr ((getEntries s).1 ++ [e]))), [], s.idGen, s.idCount⟩ =
        (sortEntries ((getEntries s).1 ++ [e]),
         ⟨some (.json (.arr ((getEntries s).1 ++ [e]))), [], s.idGen, s.idCount⟩) := by
      apply getEntries_good rfl rfl
      apply validateEntries_arr
      intro x hx
      rcases List.mem_append.mp hx with h | h
      · exact hallv x h
      · rw [List.mem_singleton.mp h]; exact hv
    rw [hgood]
    have hany : (sortEntries ((getEntries s).1 ++ [e])).any
        (fun x => idOf x == idOf e) = true := by
      apply List.any_eq_true.mpr
      exact ⟨e, mem_sortEntries.mpr (List.mem_append.mpr (Or.inr (List.mem_singleton.mpr rfl))), by simp⟩
    simp only [hany, Bool.not_true, Bool.false_eq_true, if_false]
    rw [if_neg hcol, if_neg hcol]

theorem setItem_ok {v : RawData} {s s₁ : KVState} {u : Unit}
    (h : setItem v s = (.ok u, s₁)) :
    s₁ = { s with contents := some v, failures := s.failures.tail } := by
  unfold setItem popFail at h
  cases hb : s.failures.headD false <;> rw [hb] at h
  · exact ((Prod.mk.injEq _ _ _ _).mp h).2.symm
  · exact absurd ((Prod.mk.injEq _ _ _ _).mp h).1 (by simp)

theorem removeEntry_spec_notfound {id : String} {s : KVState} (hid : id ≠ "")
    (hnone : ((getEntries s).1.any fun e => idOf e == id) = false) :
    removeEntry id s = (false, (getEntries s).2) := by
  have hid' : (id == "") = false := beq_eq_false_iff_ne.mpr hid
  unfold removeEntry removeEntryE
  rcases hge : getEntries s with ⟨ex, s₁⟩
  rw [hge] at hnone
  simp only [hid', Bool.false_eq_true, if_false, hnone, Bool.not_false, if_true]

theorem removeEntry_spec_found {id : String} {s : KVState}
    (hid : id ≠ "") (hsnu : storedNoUndef s = true) (hf : s.failures = [])
    (hmem : ((getEntries s).1.any fun e => idOf e == id) = true) :
    removeEntry id s =
      (true,
       { contents := some (.json (.arr ((getEntries s).1.filter
           (fun e => idOf e != id)))),
         failures := [], idGen := s.idGen, idCount := s.idCount }) := by
  have hid' : (id == "") = false := beq_eq_false_iff_ne.mpr hid
  have hread : getEntries s = ((getEntries s).1, s) := by
    have h2 := getEntries_snd_of_failures_nil hf
    calc getEntries s = ((getEntries s).1, (getEntries s).2) := rfl
      _ = ((getEntries s).1, s) := by rw [h2]
  have hallv := getEntries_fst_all_valid s
  have hallnu := getEntries_fst_all_noUndef hsnu
  unfold removeEntry removeEntryE
  rw [hread]
  simp only [hid', Bool.false_eq_true, if_false, hmem, Bool.not_true, if_true]
  have hnorm : jNorm (.arr ((getEntries s).1.filter (fun e => idOf e != id))) =
      .arr ((getEntries s).1.filter (fun e => idOf e != id)) := by
    apply jNorm_of_noUndef
    show noUndefElems _ = true
    rw [noUndefElems_iff]
    intro x hx
    exact hallnu x (List.mem_of_mem_filter hx)
  simp only [stringify, hnorm, setItem, popFail, hf, List.headD_nil, List.tail_nil]
  have hgood : getEntries
      ⟨some (.json (.arr ((getEntries s).1.filter (fun e => idOf e != id)))), [],
        s.idGen, s.idCount⟩ =
      (sortEntries ((getEntries s).1.filter (fun e => idOf e != id)),
       ⟨some (.json (.arr ((getEntries s).1.filter (fun e => idOf e != id)))), [],
        s.idGen, s.idCount⟩) := by
    apply getEntries_good rfl rfl
    apply validateEntries_arr
    intro x hx
    exact hallv x (List.mem_of_mem_filter hx)
  rw [hgood]
  have hnone : ((sortEntries ((getEntries s).1.filter (fun e => idOf e != id))).any
      fun e => idOf e == id) = false := by
    apply List.any_eq_false.mpr
    intro x hx
    have hx' := mem_sortEntries.mp hx
    have := List.of_mem_filter hx'
    simpa using this
  simp only [hnone, Bool.false_eq_true, if_false]

theorem list_set_eq_self {α : Type} {l : List α} {i : Nat} {a : α}
    (h : i < l.length) (ha : l[i] = a) : l.set i a = l := by
  apply List.ext_getElem
  · simp
  · intro j h₁ h₂
    rw [List.getElem_set]
    split
    · rename_i hij
      subst hij
      exact ha.symm ▸ rfl
    · rfl

theorem list_find?_unique {p : JValue → Bool} {l : List JValue} {x : JValue}
    (hx : x ∈ l) (hpx : p x = true)
    (huniq : ∀ y ∈ l, p y = true → y = x) :
    l.find? p = some x := by
  induction l with
  | nil => cases hx
  | cons y ys ih =>
    by_cases hpy : p y = true
    · have : y = x := huniq y (List.mem_cons_self y ys) hpy
      subst this
      simp [List.find?, hpy]
    · have hpy' : p y = false := Bool.not_eq_true _ ▸ (by simpa using hpy)
      rw [List.find?]
      rw [hpy']
      rcases List.mem_cons.mp hx with rfl | hx'
      · exact absurd hpx hpy
      · exact ih hx' (fun y hy hp => huniq y (List.mem_cons_of_mem _ hy) hp)

theorem updateEntry_spec_notfound {u : JValue} {s : KVState}
    (hv : validateEntry u = true)
    (hfind : (getEntries s).1.findIdx? (fun e => idOf e == idOf u) = none) :
    updateEntry u s = (false, (getEntries s).2) := by
  unfold updateEntry updateEntryE
  rw [hv]
  rcases hge : getEntries s with ⟨ex, s₁⟩
  rw [hge] at hfind
  simp only [Bool.not_true, Bool.false_eq_true, if_false, hfind]

theorem updateEntry_spec_found {u : JValue} {s : KVState} {i : Nat}
    (hv : validateEntry u = true) (hnu : noUndef u = true)
    (hsnu : storedNoUndef s = true) (hf : s.failures = [])
    (hfind : (getEntries s).1.findIdx? (fun e => idOf e == idOf u) = some i) :
    updateEntry u s =
      (true,
       { contents := some (.json (.arr ((getEntries s).1.set i u))),
         failures := [], idGen := s.idGen, idCount := s.idCount }) := by
  have hread : getEntries s = ((getEntries s).1, s) := by
    have h2 := getEntries_snd_of_failures_nil hf
    calc getEntries s = ((getEntries s).1, (getEntries s).2) := rfl
      _ = ((getEntries s).1, s) := by rw [h2]
  have hallv := getEntries_fst_all_valid s
  have hallnu := getEntries_fst_all_noUndef hsnu
  have hlen : i < (getEntries s).1.length :=
    (List.findIdx?_eq_some_iff_getElem.mp hfind).1
  have hset_mem : ∀ x ∈ (getEntries s).1.set i u,
      x ∈ (getEntries s).1 ∨ x = u := fun x hx => List.mem_or_eq_of_mem_set hx
  unfold updateEntry updateEntryE
  rw [hv]
  simp only [Bool.not_true, Bool.false_eq_true, if_false]
  rw [hread]
  rw [hfind]
  have hnorm : jNorm (.arr ((getEntries s).1.set i u)) =
      .arr ((getEntries s).1.set i u) := by
    apply jNorm_of_noUndef
    show noUndefElems _ = true
    rw [noUndefElems_iff]
    intro x hx
    rcases hset_mem x hx with h | rfl
    · exact hallnu x h
    · exact hnu
  simp only [stringify, hnorm, setItem, popFail, hf, List.headD_nil, List.tail_nil]
  have hgood : getEntries
      ⟨some (.json (.arr ((getEntries s).1.set i u))), [], s.idGen, s.idCount⟩ =
      (sortEntries ((getEntries s).1.set i u),
       ⟨some (.json (.arr ((getEntries s).1.set i u))), [], s.idGen, s.idCount⟩) := by
    apply getEntries_good rfl rfl
    apply validateEntries_arr
    intro x hx
    rcases hset_mem x hx with h | rfl
    · exact hallv x h
    · exact hv
  rw [hgood]
  have humem : u ∈ sortEntries ((getEntries s).1.set i u) := by
    apply mem_sortEntries.mpr
    have h' : i < ((getEntries s).1.set i u).length := by simpa using hlen
    have hm := List.getElem_mem h'
    rwa [List.getElem_set_self h'] at hm
  have hany : ((sortEntries ((getEntries s).1.set i u)).any
      fun e => idOf e == idOf u && createdAtOf e == createdAtOf u) = true := by
    apply List.any_eq_true.mpr
    exact ⟨u, humem, by simp⟩
  simp only [hany, Bool.not_true, Bool.false_eq_true, if_false]


theorem getEntries_ids_facts {s : KVState} (hnd : (storedIds s).Nodup) :
    ((getEntries s).1.map idOf).Nodup ∧
      ∀ y ∈ (getEntries s).1.map idOf, y ∈ storedIds s := by
  rcases getEntries_fst_empty_or_perm s with hE | hP
  · rw [hE]; exact ⟨List.nodup_nil, by simp⟩
  · have hPm := hP.map idOf
    exact ⟨hPm.nodup_iff.mpr hnd, fun y hy => hPm.mem_iff.mp hy⟩

theorem saveEntry_preserves_nodup {e : JValue} {s : KVState}
    (hGen : ∀ n, s.idGen n ∉ storedIds s)
    (hnd : (storedIds s).Nodup)
    (hsucc : (saveEntry e s).1 = true) :
    (storedIds (saveEntry e s).2.2).Nodup := by
  by_cases hv : validateEntry e = true
  case neg => simp [saveEntry, saveEntryE, hv] at hsucc
  case pos =>
  have hallv := getEntries_fst_all_valid s
  obtain ⟨hexnd, hexsub⟩ := getEntries_ids_facts hnd
  have hsnd := getEntries_snd s
  unfold saveEntry saveEntryE at hsucc ⊢
  rw [hv] at hsucc ⊢
  simp only [Bool.not_true, Bool.false_eq_true, if_false] at hsucc ⊢
  rcases hge : getEntries s with ⟨ex, s₁⟩
  rw [hge] at hallv hexnd hexsub hsnd hsucc
  have hs₁ : s₁ = ⟨s.contents, s.failures.tail, s.idGen, s.idCount⟩ := hsnd
  have hallv' : ∀ x ∈ ex, validateEntry x = true := hallv
  have hexnd' : (ex.map idOf).Nodup := hexnd
  have hexsub' : ∀ y ∈ ex.map idOf, y ∈ storedIds s := hexsub
  by_cases hcol : (ex.any fun x => idOf x == idOf e) = true
  · simp only [hcol, if_true, nextFreshId] at hsucc ⊢
    rcases hset : setItem (stringify (.arr (ex ++
        [setField e "id" (.str (s₁.idGen s₁.idCount))])))
        { s₁ with idCount := s₁.idCount + 1 } with ⟨rs, s₃⟩
    rw [hset] at hsucc
    cases rs with
    | error err => simp at hsucc
    | ok u =>
      have hs₃ := setItem_ok hset
      simp only [] at hsucc ⊢
      rcases hge2 : getEntries s₃ with ⟨cur, s₄⟩
      rw [hge2] at hsucc
      have hs₄ : s₄ = { s₃ with failures := s₃.failures.tail } := by
        have h := getEntries_snd s₃
        rw [hge2] at h
        exact h
      by_cases hver : (cur.any fun x =>
          idOf x == idOf (setField e "id" (.str (s₁.idGen s₁.idCount)))) = true
      · simp only [hver, Bool.not_true, Bool.false_eq_true, if_false] at hsucc ⊢
        have hc₄ : s₄.contents = some (.json (.arr (jNormElems (ex ++
            [setField e "id" (.str (s₁.idGen s₁.idCount))])))) := by
          rw [hs₄]
          show s₃.contents = _
          rw [hs₃]
          rfl
        have he₁v : validateEntry (setField e "id" (.str (s₁.idGen s₁.idCount))) = true :=
          validateEntry_setField_id _ hv
        have hids₄ : storedIds s₄ = ex.map idOf ++ [s₁.idGen s₁.idCount] := by
          rw [show storedIds s₄ = (storedList s₄).map idOf from rfl]
          rw [show storedList s₄ = jNormElems (ex ++
            [setField e "id" (.str (s₁.idGen s₁.idCount))]) from by
              simp [storedList, hc₄]]
          rw [map_idOf_jNormElems (by
            intro x hx
            rcases List.mem_append.mp hx with h | h
            · exact hallv' x h
            · rw [List.mem_singleton.mp h]; exact he₁v)]
          rw [List.map_append]
          congr 1
          obtain ⟨fs, rfl⟩ := valid_is_obj hv
          simp only [List.map_cons, List.map_nil]
          rw [idOf_setField_id fs (s₁.idGen s₁.idCount)]
        rw [hids₄]
        rw [List.nodup_append]
        refine ⟨hexnd', List.nodup_singleton _, ?_⟩
        intro y hy
        simp only [List.mem_singleton]
        intro hz
        subst hz
        have hmem2 : s₁.idGen s₁.idCount ∈ storedIds s := hexsub' _ hy
        rw [hs₁] at hmem2
        exact hGen s.idCount hmem2
      · simp [hver] at hsucc
  · have hcol' : (ex.any fun x => idOf x == idOf e) = false := by
      simpa using hcol
    simp only [hcol', Bool.false_eq_true, if_false] at hsucc ⊢
    rcases hset : setItem (stringify (.arr (ex ++ [e]))) s₁ with ⟨rs, s₃⟩
    rw [hset] at hsucc
    cases rs with
    | error err => simp at hsucc
    | ok u =>
      have hs₃ := setItem_ok hset
      simp only [] at hsucc ⊢
      rcases hge2 : getEntries s₃ with ⟨cur, s₄⟩
      rw [hge2] at hsucc
      have hs₄ : s₄ = { s₃ with failures := s₃.failures.tail } := by
        have h := getEntries_snd s₃
        rw [hge2] at h
        exact h
      by_cases hver : (cur.any fun x => idOf x == idOf e) = true
      · simp only [hver, Bool.not_true, Bool.false_eq_true, if_false] at hsucc ⊢
        have hc₄ : s₄.contents = some (.json (.arr (jNormElems (ex ++ [e])))) := by
          rw [hs₄]
          show s₃.contents = _
          rw [hs₃]
          rfl
        have hids₄ : storedIds s₄ = ex.map idOf ++ [idOf e] := by
          rw [show storedIds s₄ = (storedList s₄).map idOf from rfl]
          rw [show storedList s₄ = jNormElems (ex ++ [e]) from by
            simp [storedList, hc₄]]
          rw [map_idOf_jNormElems (by
            intro x hx
            rcases List.mem_append.mp hx with h | h
            · exact hallv' x h
            · rw [List.mem_singleton.mp h]; exact hv)]
          rw [List.map_append]
          rfl
        rw [hids₄]
        rw [List.nodup_append]
        refine ⟨hexnd', List.nodup_singleton _, ?_⟩
        intro y hy
        simp only [List.mem_singleton]
        intro hz
        subst hz
        obtain ⟨x, hx, hxy⟩ := List.mem_map.mp hy
        have := List.any_eq_false.mp hcol' x hx
        simp only [beq_iff_eq] at this
        exact this hxy
      · simp [hver] at hsucc

theorem removeEntry_preserves_nodup {id : String} {s : KVState}
    (hnd : (storedIds s).Nodup)
    (hsucc : (removeEntry id s).1 = true) :
    (storedIds (removeEntry id s).2).Nodup := by
  by_cases hid : (id == "") = true
  case pos => simp [removeEntry, removeEntryE, hid] at hsucc
  case neg =>
  have hid' : (id == "") = false := by simpa using hid
  have hallv := getEntries_fst_all_valid s
  obtain ⟨hexnd, hexsub⟩ := getEntries_ids_facts hnd
  unfold removeEntry removeEntryE at hsucc ⊢
  simp only [hid', Bool.false_eq_true, if_false] at hsucc ⊢
  rcases hge : getEntries s with ⟨ex, s₁⟩
  rw [hge] at hallv hexnd hexsub hsucc
  have hallv' : ∀ x ∈ ex, validateEntry x = true := hallv
  have hexnd' : (ex.map idOf).Nodup := hexnd
  by_cases hmem : (ex.any fun x => idOf x == id) = true
  case neg =>
    have hmem' : (ex.any fun x => idOf x == id) = false := by simpa using hmem
    simp [hmem'] at hsucc
  case pos =>
  simp only [hmem, Bool.not_true, Bool.false_eq_true, if_false] at hsucc ⊢
  rcases hset : setItem (stringify (.arr (ex.filter fun x => idOf x != id))) s₁
    with ⟨rs, s₃⟩
  rw [hset] at hsucc
  cases rs with
  | error err => simp at hsucc
  | ok u =>
    have hs₃ := setItem_ok hset
    simp only [] at hsucc ⊢
    rcases hge2 : getEntries s₃ with ⟨cur, s₄⟩
    rw [hge2] at hsucc
    have hs₄ : s₄ = { s₃ with failures := s₃.failures.tail } := by
      have h := getEntries_snd s₃
      rw [hge2] at h
      exact h
    by_cases hver : (cur.any fun x => idOf x == id) = true
    case pos => simp [hver] at hsucc
    case neg =>
    have hver' : (cur.any fun x => idOf x == id) = false := by simpa using hver
    simp only [hver', Bool.false_eq_true, if_false] at hsucc ⊢
    have hc₄ : s₄.contents =
        some (.json (.arr (jNormElems (ex.filter fun x => idOf x != id)))) := by
      rw [hs₄]
      show s₃.contents = _
      rw [hs₃]
      rfl
    have hids₄ : storedIds s₄ = (ex.filter fun x => idOf x != id).map idOf := by
      rw [show storedIds s₄ = (storedList s₄).map idOf from rfl]
      rw [show storedList s₄ = jNormElems (ex.filter fun x => idOf x != id) from by
        simp [storedList, hc₄]]
      rw [map_idOf_jNormElems (fun x hx => hallv' x (List.mem_of_mem_filter hx))]
    rw [hids₄]
    exact ((List.filter_sublist ex).map idOf).nodup hexnd'

theorem updateEntry_preserves_nodup {u : JValue} {s : KVState}
    (hnd : (storedIds s).Nodup)
    (hsucc : (updateEntry u s).1 = true) :
    (storedIds (updateEntry u s).2).Nodup := by
  by_cases hv : validateEntry u = true
  case neg => simp [updateEntry, updateEntryE, hv] at hsucc
  case pos =>
  have hallv := getEntries_fst_all_valid s
  obtain ⟨hexnd, hexsub⟩ := getEntries_ids_facts hnd
  unfold updateEntry updateEntryE at hsucc ⊢
  rw [hv] at hsucc ⊢
  simp only [Bool.not_true, Bool.false_eq_true, if_false] at hsucc ⊢
  rcases hge : getEntries s with ⟨ex, s₁⟩
  rw [hge] at hallv hexnd hexsub hsucc
  have hallv' : ∀ x ∈ ex, validateEntry x = true := hallv
  have hexnd' : (ex.map idOf).Nodup := hexnd
  rcases hfind : ex.findIdx? (fun x => idOf x == idOf u) with _ | i
  · rw [hfind] at hsucc
    simp at hsucc
  · rw [hfind] at hsucc
    simp only [] at hsucc ⊢
    obtain ⟨hlen, hpi, -⟩ := List.findIdx?_eq_some_iff_getElem.mp hfind
    rcases hset : setItem (stringify (.arr (ex.set i u))) s₁ with ⟨rs, s₃⟩
    rw [hset] at hsucc
    cases rs with
    | error err => simp at hsucc
    | ok uu =>
      have hs₃ := setItem_ok hset
      simp only [] at hsucc ⊢
      rcases hge2 : getEntries s₃ with ⟨cur, s₄⟩
      rw [hge2] at hsucc
      have hs₄ : s₄ = { s₃ with failures := s₃.failures.tail } := by
        have h := getEntries_snd s₃
        rw [hge2] at h
        exact h
      by_cases hver : (cur.any fun x =>
          idOf x == idOf u && createdAtOf x == createdAtOf u) = true
      case neg => simp [hver] at hsucc
      case pos =>
      simp only [hver, Bool.not_true, Bool.false_eq_true, if_false] at hsucc ⊢
      have hc₄ : s₄.contents = some (.json (.arr (jNormElems (ex.set i u)))) := by
        rw [hs₄]
        show s₃.contents = _
        rw [hs₃]
        rfl
      have hids₄ : storedIds s₄ = ex.map idOf := by
        rw [show storedIds s₄ = (storedList s₄).map idOf from rfl]
        rw [show storedList s₄ = jNormElems (ex.set i u) from by
          simp [storedList, hc₄]]
        rw [map_idOf_jNormElems (by
          intro x hx
          rcases List.mem_or_eq_of_mem_set hx with h | rfl
          · exact hallv' x h
          · exact hv)]
        rw [List.map_set]
        apply list_set_eq_self (by simpa using hlen)
        rw [List.getElem_map]
        simpa using hpi
      rw [hids₄]
      exact hexnd'

theorem saveEntry_twice_same_id {e₁ e₂ : JValue} {s : KVState}
    (hv₁ : validateEntry e₁ = true) (hv₂ : validateEntry e₂ = true)
    (hnu₁ : noUndef e₁ = true) (hnu₂ : noUndef e₂ = true)
    (hsnu : storedNoUndef s = true) (hf : s.failures = [])
    (hid : idOf e₂ = idOf e₁)
    (hnew : idOf e₁ ∉ readIds s)
    (hnd : (readIds s).Nodup)
    (hfreshmem : ∀ n, s.idGen n ∉ readIds s)
    (hfreshne : ∀ n, s.idGen n ≠ idOf e₁) :
    (saveEntry e₁ s).1 = true ∧
    (saveEntry e₂ (saveEntry e₁ s).2.2).1 = true ∧
    (saveEntry e₁ s).2.1 = e₁ ∧
    idOf (saveEntry e₂ (saveEntry e₁ s).2.2).2.1 ≠ idOf e₁ ∧
    (storedIds (saveEntry e₂ (saveEntry e₁ s).2.2).2.2).Nodup ∧
    idOf e₁ ∈ storedIds (saveEntry e₂ (saveEntry e₁ s).2.2).2.2 ∧
    idOf (saveEntry e₂ (saveEntry e₁ s).2.2).2.1 ∈
      storedIds (saveEntry e₂ (saveEntry e₁ s).2.2).2.2 ∧
    (storedIds (saveEntry e₂ (saveEntry e₁ s).2.2).2.2).length =
      (readIds s).length + 2 := by
  have hallv := getEntries_fst_all_valid s
  have hallnu := getEntries_fst_all_noUndef hsnu
  have hspec₁ := saveEntry_spec hv₁ hnu₁ hsnu hf
  have hcol₁ : ((getEntries s).1.any fun x => idOf x == idOf e₁) = false := by
    apply List.any_eq_false.mpr
    intro x hx
    simp only [beq_iff_eq]
    intro hxe
    exact hnew (hxe ▸ List.mem_map_of_mem idOf hx)
  simp only [hcol₁, Bool.false_eq_true, if_false] at hspec₁
  rw [hspec₁]
  have hval' : validateEntries (.arr ((getEntries s).1 ++ [e₁])) = true := by
    apply validateEntries_arr
    intro x hx
    rcases List.mem_append.mp hx with h | h
    · exact hallv x h
    · rw [List.mem_singleton.mp h]; exact hv₁
  have hge' : getEntries
      ⟨some (.json (.arr ((getEntries s).1 ++ [e₁]))), [], s.idGen, s.idCount⟩ =
      (sortEntries ((getEntries s).1 ++ [e₁]),
       ⟨some (.json (.arr ((getEntries s).1 ++ [e₁]))), [], s.idGen, s.idCount⟩) :=
    getEntries_good rfl rfl hval'
  have hsnu' : storedNoUndef
      ⟨some (.json (.arr ((getEntries s).1 ++ [e₁]))), [], s.idGen, s.idCount⟩ = true := by
    show noUndefElems _ = true
    exact noUndefElems_append hallnu (by simp [hnu₁])
  have hspec₂ := saveEntry_spec (e := e₂) hv₂ hnu₂ hsnu' rfl
  rw [hge'] at hspec₂
  have hcol₂ : ((sortEntries ((getEntries s).1 ++ [e₁])).any
      fun x => idOf x == idOf e₂) = true := by
    apply List.any_eq_true.mpr
    refine ⟨e₁, mem_sortEntries.mpr (List.mem_append.mpr (Or.inr (List.mem_singleton.mpr rfl))), ?_⟩
    simp [hid]
  simp only [hcol₂, if_true] at hspec₂
  rw [hspec₂]
  obtain ⟨fs₂, hfs₂⟩ := valid_is_obj hv₂
  have hide₂ : idOf (setField e₂ "id" (.str (s.idGen s.idCount))) =
      s.idGen s.idCount := by
    rw [hfs₂]
    exact idOf_setField_id fs₂ _
  have hidsfin : storedIds
      ⟨some (.json (.arr (sortEntries ((getEntries s).1 ++ [e₁]) ++
          [setField e₂ "id" (.str (s.idGen s.idCount))]))), [],
        s.idGen, s.idCount + 1⟩ =
      (sortEntries ((getEntries s).1 ++ [e₁])).map idOf ++ [s.idGen s.idCount] := by
    show (sortEntries ((getEntries s).1 ++ [e₁]) ++
        [setField e₂ "id" (.str (s.idGen s.idCount))]).map idOf = _
    rw [List.map_append]
    simp only [List.map_cons, List.map_nil, hide₂]
  rw [hidsfin]
  have hperm : ((sortEntries ((getEntries s).1 ++ [e₁])).map idOf).Perm
      (readIds s ++ [idOf e₁]) := by
    have h := (sortEntries_perm ((getEntries s).1 ++ [e₁])).map idOf
    rwa [List.map_append] at h
  refine ⟨rfl, rfl, rfl, ?_, ?_, ?_, ?_, ?_⟩
  · rw [hide₂]
    exact hfreshne s.idCount
  · apply ((hperm.append_right [s.idGen s.idCount]).nodup_iff).mpr
    rw [List.nodup_append]
    refine ⟨?_, List.nodup_singleton _, ?_⟩
    · rw [List.nodup_append]
      refine ⟨hnd, List.nodup_singleton _, ?_⟩
      intro y hy
      simp only [List.mem_singleton]
      intro hz
      subst hz
      exact hnew hy
    · intro y hy
      simp only [List.mem_singleton]
      intro hz
      subst hz
      rcases List.mem_append.mp hy with h | h
      · exact hfreshmem s.idCount h
      · exact hfreshne s.idCount (List.mem_singleton.mp h)
  · apply List.mem_append.mpr
    left
    apply List.mem_map_of_mem idOf
    exact mem_sortEntries.mpr (List.mem_append.mpr (Or.inr (List.mem_singleton.mpr rfl)))
  · rw [hide₂]
    apply List.mem_append.mpr
    right
    exact List.mem_singleton.mpr rfl
  · rw [List.length_append, List.length_map,
      (sortEntries_perm ((getEntries s).1 ++ [e₁])).length_eq,
      List.length_append]
    simp [readIds]

theorem getEntryCount_fst (s : KVState) :
    (getEntryCount s).1 = (getEntries s).1.length := by
  rcases hge : getEntries s with ⟨l, s₁⟩
  simp [getEntryCount, getEntryCountE, hge]

theorem getEntryById_fst (id : String) (s : KVState) :
    (getEntryById id s).1 = (getEntries s).1.find? (fun e => idOf e == id) := by
  rcases hge : getEntries s with ⟨l, s₁⟩
  simp [getEntryById, getEntryByIdE, hge]

theorem filter_ne_length {l : List JValue} {id : String}
    (hnd : (l.map idOf).Nodup) {x : JValue} (hx : x ∈ l) (hid : idOf x = id) :
    (l.filter fun e => idOf e != id).length + 1 = l.length := by
  induction l with
  | nil => cases hx
  | cons y t ih =>
    rw [List.map_cons, List.nodup_cons] at hnd
    by_cases hy : idOf y = id
    · have hyb : (idOf y != id) = false := by simp [hy]
      rw [List.filter_cons, hyb]
      simp only [Bool.false_eq_true, if_false]
      have hkeep : t.filter (fun e => idOf e != id) = t := by
        apply List.filter_eq_self.mpr
        intro e he
        simp only [bne_iff_ne, ne_eq]
        intro hc
        exact hnd.1 (by rw [hy, ← hc]; exact List.mem_map_of_mem idOf he)
      rw [hkeep]
      rfl
    · have hyb : (idOf y != id) = true := bne_iff_ne.mpr hy
      rw [List.filter_cons, hyb]
      simp only [if_true, List.length_cons]
      have hx' : x ∈ t := by
        rcases List.mem_cons.mp hx with rfl | h
        · exact absurd hid hy
        · exact h
      rw [ih hnd.2 hx']

theorem saveEntry_then_getById {e : JValue} {s : KVState}
    (hv : validateEntry e = true) (hnu : noUndef e = true)
    (hsnu : storedNoUndef s = true) (hf : s.failures = [])
    (hGen : ∀ n, s.idGen n ∉ readIds s) :
    (saveEntry e s).1 = true ∧
    (getEntryById (idOf (saveEntry e s).2.1) (saveEntry e s).2.2).1 =
      some (saveEntry e s).2.1 := by
  have hallv := getEntries_fst_all_valid s
  have hspec := saveEntry_spec hv hnu hsnu hf
  by_cases hcol : ((getEntries s).1.any fun x => idOf x == idOf e) = true
  · simp only [hcol, if_true] at hspec
    rw [hspec]
    refine ⟨rfl, ?_⟩
    obtain ⟨fs, hfs⟩ := valid_is_obj hv
    have hide : idOf (setField e "id" (.str (s.idGen s.idCount))) =
        s.idGen s.idCount := by
      rw [hfs]; exact idOf_setField_id fs _
    have he'v : validateEntry (setField e "id" (.str (s.idGen s.idCount))) = true :=
      validateEntry_setField_id _ hv
    have hval : validateEntries (.arr ((getEntries s).1 ++
        [setField e "id" (.str (s.idGen s.idCount))])) = true := by
      apply validateEntries_arr
      intro x hx
      rcases List.mem_append.mp hx with h | h
      · exact hallv x h
      · rw [List.mem_singleton.mp h]; exact he'v
    rw [getEntryById_fst]
    rw [getEntries_fresh _ _ _ hval]
    apply list_find?_unique
    · exact mem_sortEntries.mpr
        (List.mem_append.mpr (Or.inr (List.mem_singleton.mpr rfl)))
    · simp
    · intro y hy hp
      have hy' := mem_sortEntries.mp hy
      rcases List.mem_append.mp hy' with h | h
      · exfalso
        simp only [beq_iff_eq] at hp
        rw [hide] at hp
        exact hGen s.idCount (hp ▸ List.mem_map_of_mem idOf h)
      · exact List.mem_singleton.mp h
  · have hcol' : ((getEntries s).1.any fun x => idOf x == idOf e) = false := by
      simpa using hcol
    simp only [hcol', Bool.false_eq_true, if_false] at hspec
    rw [hspec]
    refine ⟨rfl, ?_⟩
    have hval : validateEntries (.arr ((getEntries s).1 ++ [e])) = true := by
      apply validateEntries_arr
      intro x hx
      rcases List.mem_append.mp hx with h | h
      · exact hallv x h
      · rw [List.mem_singleton.mp h]; exact hv
    rw [getEntryById_fst]
    rw [getEntries_fresh _ _ _ hval]
    apply list_find?_unique
    · exact mem_sortEntries.mpr
        (List.mem_append.mpr (Or.inr (List.mem_singleton.mpr rfl)))
    · simp
    · intro y hy hp
      have hy' := mem_sortEntries.mp hy
      rcases List.mem_append.mp hy' with h | h
      · exfalso
        simp only [beq_iff_eq] at hp
        have := List.any_eq_false.mp hcol' y h
        simp only [beq_iff_eq] at this
        exact this hp
      · exact List.mem_singleton.mp h

theorem updateEntry_found_getById {u : JValue} {s : KVState}
    (hv : validateEntry u = true) (hnu : noUndef u = true)
    (hsnu : storedNoUndef s = true) (hf : s.failures = [])
    (hnd : (readIds s).Nodup)
    {x : JValue} (hx : x ∈ (getEntries s).1) (hxid : idOf x = idOf u) :
    (updateEntry u s).1 = true ∧
    (getEntryById (idOf u) (updateEntry u s).2).1 = some u := by
  have hallv := getEntries_fst_all_valid s
  have hex : ∃ y, y ∈ (getEntries s).1 ∧ (idOf y == idOf u) = true :=
    ⟨x, hx, by simp [hxid]⟩
  have hfind := List.findIdx?_eq_some_of_exists hex
  obtain ⟨hlen, hpi, -⟩ := List.findIdx?_eq_some_iff_getElem.mp hfind
  have hspec := updateEntry_spec_found hv hnu hsnu hf hfind
  rw [hspec]
  refine ⟨rfl, ?_⟩
  have hval : validateEntries (.arr ((getEntries s).1.set
      ((getEntries s).1.findIdx fun e => idOf e == idOf u) u)) = true := by
    apply validateEntries_arr
    intro y hy
    rcases List.mem_or_eq_of_mem_set hy with h | rfl
    · exact hallv y h
    · exact hv
  rw [getEntryById_fst]
  rw [getEntries_fresh _ _ _ hval]
  have hndset : (((getEntries s).1.set
      ((getEntries s).1.findIdx fun e => idOf e == idOf u) u).map idOf).Nodup := by
    rw [List.map_set]
    rw [list_set_eq_self (by simpa using hlen) (by
      rw [List.getElem_map]
      simpa using hpi)]
    exact hnd
  have humem : u ∈ sortEntries ((getEntries s).1.set
      ((getEntries s).1.findIdx fun e => idOf e == idOf u) u) := by
    apply mem_sortEntries.mpr
    have h' : (getEntries s).1.findIdx (fun e => idOf e == idOf u) <
        ((getEntries s).1.set ((getEntries s).1.findIdx fun e => idOf e == idOf u) u).length := by
      simpa using hlen
    have hm := List.getElem_mem h'
    rwa [List.getElem_set_self h'] at hm
  apply list_find?_unique humem
  · simp
  · intro y hy hp
    have hy' := mem_sortEntries.mp hy
    simp only [beq_iff_eq] at hp
    exact List.inj_on_of_nodup_map hndset hy' (mem_sortEntries.mp humem) hp

/-! ## Claim theorems -/

/-- C3: the entry validator returns `true` exactly on structured (object)
values whose six required fields are present with the correct primitive kind
and whose present optional fields match their shapes (string `title`/`notes`,
array `tags`, `typeof`-object `weather`); an absent optional field is always
valid.  The validator is a total boolean function, so it never raises. -/
theorem claim_validator_characterisation :
    ∀ v : JValue, validateEntry v = true ↔ ValidEntrySpec v :=
  validateEntry_iff

/-- C9: the validator does not look inside the optional `tags` and `weather`
values: an entry whose `tags` array contains non-string elements is accepted,
and an entry whose `weather` is `null` is accepted, because `typeof null` is
`"object"`. -/
theorem claim_validator_shallow_optional_checks :
    validateEntry (.obj [("id", .str "a"), ("imageUri", .str "u"),
      ("address", .str "b"), ("latitude", .num 1), ("longitude", .num 2),
      ("createdAt", .num 3), ("tags", .arr [.num 7, .null])]) = true ∧
    validateEntry (.obj [("id", .str "a"), ("imageUri", .str "u"),
      ("address", .str "b"), ("latitude", .num 1), ("longitude", .num 2),
      ("createdAt", .num 3), ("weather", .null)]) = true ∧
    typeof (.num 7) ≠ "string" ∧ typeof JValue.null = "object" := by
  refine ⟨by decide, by decide, by decide, rfl⟩

/-- C10: deleting with the empty-string id fails the falsy-id guard, so
`removeEntry` returns `false` without consuming any storage call and without
touching the stored contents: the state is returned unchanged. -/
theorem claim_empty_id_delete_noop :
    ∀ s : KVState, removeEntry "" s = (false, s) := by
  intro s
  rfl

/-- C8: entries held in the collection as read always pass the validator, and
both mutating entry points reject a validator-failing value without
performing any storage call: the state is returned untouched. -/
theorem claim_validator_gates_mutations :
    (∀ s : KVState, ∀ x ∈ (getEntries s).1, validateEntry x = true) ∧
    (∀ (x : JValue) (s : KVState), validateEntry x = false →
      saveEntry x s = (false, x, s)) ∧
    (∀ (x : JValue) (s : KVState), validateEntry x = false →
      updateEntry x s = (false, s)) := by
  refine ⟨getEntries_fst_all_valid, ?_, ?_⟩
  · intro x s hx
    simp [saveEntry, saveEntryE, hx]
  · intro x s hx
    simp [updateEntry, updateEntryE, hx]

/-- C8 witness: a record missing `latitude` is rejected and neither insert
nor update writes it; a complete record read back from storage validates. -/
theorem claim_validator_gates_mutations_witness :
    validateEntry (.obj [("id", .str "a"), ("imageUri", .str "u"),
      ("address", .str "b"), ("longitude", .num 2), ("createdAt", .num 3)]) = false ∧
    saveEntry (.obj [("id", .str "a"), ("imageUri", .str "u"),
      ("address", .str "b"), ("longitude", .num 2), ("createdAt", .num 3)])
      emptyState =
      (false, .obj [("id", .str "a"), ("imageUri", .str "u"),
        ("address", .str "b"), ("longitude", .num 2), ("createdAt", .num 3)],
       emptyState) ∧
    updateEntry (.obj [("id", .str "a"), ("imageUri", .str "u"),
      ("address", .str "b"), ("longitude", .num 2), ("createdAt", .num 3)])
      emptyState = (false, emptyState) ∧
    validateEntry (sampleEntry "a" 1) = true := by
  refine ⟨by decide, ?_, ?_, ?_⟩
  · exact claim_validator_gates_mutations.2.1 _ emptyState (by decide)
  · exact claim_validator_gates_mutations.2.2 _ emptyState (by decide)
  · refine claim_validator_gates_mutations.1 (sampleState [sampleEntry "a" 1])
      (sampleEntry "a" 1) ?_
    rw [show (getEntries (sampleState [sampleEntry "a" 1])).1 =
      [sampleEntry "a" 1] from rfl]
    exact List.mem_singleton.mpr rfl

/-- C4: no public operation lets an error escape.  For the operations whose
bodies can throw (validation failures, the falsy-id guard, storage rejections,
parse failures), the `catch` clause converts any thrown error into the safe
default value — `false`, the empty sequence, zero, or absent — together with
the state at the point of the fault; the remaining operations cannot throw at
all, on any input and any underlying-store behaviour. -/
theorem claim_no_error_escapes :
    (∀ (e : JValue) (s : KVState) (e₁ : JValue) (s₁ : KVState) (err : StErr),
      saveEntryE e s = (.error err, e₁, s₁) → saveEntry e s = (false, e₁, s₁)) ∧
    (∀ (s s₁ : KVState) (err : StErr),
      getEntriesE s = (.error err, s₁) → getEntries s = ([], s₁)) ∧
    (∀ (id : String) (s s₁ : KVState) (err : StErr),
      removeEntryE id s = (.error err, s₁) → removeEntry id s = (false, s₁)) ∧
    (∀ (u : JValue) (s s₁ : KVState) (err : StErr),
      updateEntryE u s = (.error err, s₁) → updateEntry u s = (false, s₁)) ∧
    (∀ (s s₁ : KVState) (err : StErr),
      clearAllEntriesE s = (.error err, s₁) → clearAllEntries s = (false, s₁)) ∧
    (∀ (id : String) (s : KVState), isErr (getEntryByIdE id s).1 = false) ∧
    (∀ s : KVState, isErr (getEntryCountE s).1 = false) ∧
    (∀ s : KVState, isErr (debugStorageE s).1 = false) := by
  refine ⟨?_, ?_, ?_, ?_, ?_, ?_, ?_, ?_⟩
  · intro e s e₁ s₁ err h
    simp [saveEntry, h]
  · intro s s₁ err h
    simp [getEntries, h]
  · intro id s s₁ err h
    simp [removeEntry, h]
  · intro u s s₁ err h
    simp [updateEntry, h]
  · intro s s₁ err h
    simp [clearAllEntries, h]
  · intro id s
    rcases hge : getEntries s with ⟨l, s₁⟩
    simp [getEntryByIdE, hge, isErr]
  · intro s
    rcases hge : getEntries s with ⟨l, s₁⟩
    simp [getEntryCountE, hge, isErr]
  · intro s
    rcases hge : getEntries s with ⟨l, s₁⟩
    simp [debugStorageE, hge, isErr]

/-- C4 witness: concrete faults — an invalid entry thrown at validation, a
rejected storage `get`, the falsy-id guard, and a rejected storage `remove` —
all fold to the documented safe defaults, and the three throw-free bodies are
error-free on concrete inputs. -/
theorem claim_no_error_escapes_witness :
    saveEntry .null emptyState = (false, .null, emptyState) ∧
    getEntries ⟨none, [true], sampleGen, 0⟩ = ([], ⟨none, [], sampleGen, 0⟩) ∧
    removeEntry "" emptyState = (false, emptyState) ∧
    updateEntry .null emptyState = (false, emptyState) ∧
    clearAllEntries ⟨none, [true], sampleGen, 0⟩ =
      (false, ⟨none, [], sampleGen, 0⟩) ∧
    isErr (getEntryByIdE "a" emptyState).1 = false ∧
    isErr (getEntryCountE emptyState).1 = false ∧
    isErr (debugStorageE emptyState).1 = false := by
  refine ⟨?_, ?_, ?_, ?_, ?_, ?_, ?_, ?_⟩
  · exact claim_no_error_escapes.1 .null emptyState .null emptyState
      .invalidEntry rfl
  · exact claim_no_error_escapes.2.1 ⟨none, [true], sampleGen, 0⟩
      ⟨none, [], sampleGen, 0⟩ .storage rfl
  · exact claim_no_error_escapes.2.2.1 "" emptyState emptyState .invalidId rfl
  · exact claim_no_error_escapes.2.2.2.1 .null emptyState emptyState
      .invalidEntry rfl
  · exact claim_no_error_escapes.2.2.2.2.1 ⟨none, [true], sampleGen, 0⟩
      ⟨none, [], sampleGen, 0⟩ .storage rfl
  · exact claim_no_error_escapes.2.2.2.2.2.1 "a" emptyState
  · exact claim_no_error_escapes.2.2.2.2.2.2.1 emptyState
  · exact claim_no_error_escapes.2.2.2.2.2.2.2 emptyState

/-- C2: the shared read path is total and safe.  It returns the empty
sequence when the key is absent, when the stored string does not parse, and
when the collection validator rejects the decoded value — in particular when
any single element fails the entry validator, the whole sequence is dropped.
When the stored value is a validator-passing array and the storage read
succeeds, the result is exactly the decoded entries sorted by `createdAt`
descending; and any error thrown inside the body is caught and folded to the
empty sequence. -/
theorem claim_read_all_total_sorted :
    ∀ s : KVState,
    (s.contents = none → (getEntries s).1 = []) ∧
    (∀ t, s.contents = some (.text t) → (getEntries s).1 = []) ∧
    (∀ v, s.contents = some (.json v) → validateEntries v = false →
      (getEntries s).1 = []) ∧
    (∀ l x, s.contents = some (.json (.arr l)) → x ∈ l →
      validateEntry x = false → (getEntries s).1 = []) ∧
    (∀ l, s.contents = some (.json (.arr l)) → validateEntries (.arr l) = true →
      s.failures.headD false = false →
      ((getEntries s).1.Perm l ∧ SortedByCreatedAtDesc (getEntries s).1)) ∧
    (∀ (err : StErr) (s₁ : KVState),
      getEntriesE s = (.error err, s₁) → getEntries s = ([], s₁)) := by
  intro s
  refine ⟨?_, ?_, ?_, ?_, ?_, ?_⟩
  · exact getEntries_fst_of_contents_none
  · intro t h
    exact getEntries_fst_of_text h
  · intro v h hv
    exact getEntries_fst_of_invalid h hv
  · intro l x h hx hbad
    apply getEntries_fst_of_invalid h
    cases hvv : validateEntries (.arr l) with
    | false => rfl
    | true =>
      obtain ⟨l', hl', hall⟩ := validateEntries_arr_inv hvv
      cases hl'
      exact absurd (hall x hx) (by simp [hbad])
  · intro l h hv hok
    rw [getEntries_fst_of_good h hv hok]
    exact ⟨sortEntries_perm l, sortEntries_sorted l⟩
  · intro err s₁ h
    exact getEntries_of_error h

/-- C2 witness: an absent key reads as the empty sequence, and a concrete
valid collection with creation times 10, 30, 20 reads back as a permutation
of itself sorted newest-first. -/
theorem claim_read_all_total_sorted_witness :
    (getEntries emptyState).1 = [] ∧
    ((getEntries (sampleState [sampleEntry "a" 10, sampleEntry "b" 30,
        sampleEntry "c" 20])).1.Perm
      [sampleEntry "a" 10, sampleEntry "b" 30, sampleEntry "c" 20] ∧
     SortedByCreatedAtDesc (getEntries (sampleState [sampleEntry "a" 10,
        sampleEntry "b" 30, sampleEntry "c" 20])).1) := by
  refine ⟨(claim_read_all_total_sorted emptyState).1 rfl, ?_⟩
  exact (claim_read_all_total_sorted (sampleState [sampleEntry "a" 10,
    sampleEntry "b" 30, sampleEntry "c" 20])).2.2.2.2.1 _ rfl (by decide) rfl

/-- C5: round trip — inserting a valid entry succeeds, and fetching by the id
the store left on the (possibly collision-rewritten) entry returns exactly
that stored entry, equal in all fields.  The hypotheses say the stored
payload is JSON-representable, no storage call is scheduled to fail, and the
generated ids are fresh. -/
theorem claim_insert_roundtrip :
    ∀ (e : JValue) (s : KVState), validateEntry e = true → noUndef e = true →
    storedNoUndef s = true → s.failures = [] → (∀ n, s.idGen n ∉ readIds s) →
    (saveEntry e s).1 = true ∧
    (getEntryById (idOf (saveEntry e s).2.1) (saveEntry e s).2.2).1 =
      some (saveEntry e s).2.1 :=
  fun _ _ hv hnu hsnu hf hGen => saveEntry_then_getById hv hnu hsnu hf hGen

/-- C5 witness: inserting an entry whose id collides with the stored one
succeeds, and fetching by the rewritten id returns the stored entry. -/
theorem claim_insert_roundtrip_witness :
    (saveEntry (sampleEntry "a" 7) (sampleState [sampleEntry "a" 5])).1 = true ∧
    (getEntryById
        (idOf (saveEntry (sampleEntry "a" 7) (sampleState [sampleEntry "a" 5])).2.1)
        (saveEntry (sampleEntry "a" 7) (sampleState [sampleEntry "a" 5])).2.2).1 =
      some (saveEntry (sampleEntry "a" 7) (sampleState [sampleEntry "a" 5])).2.1 := by
  refine claim_insert_roundtrip (sampleEntry "a" 7)
    (sampleState [sampleEntry "a" 5]) (by decide) (by decide) (by decide) rfl ?_
  intro n
  show "generated-id" ∉ readIds (sampleState [sampleEntry "a" 5])
  decide

/-- C6: delete semantics.  For a non-empty id absent from the collection as
read, delete reports failure without writing and (when no storage call is
scheduled to fail) leaves the count unchanged.  For an id present in a
duplicate-free collection, delete succeeds, a subsequent fetch by that id is
absent, and the count decreases by exactly one. -/
theorem claim_delete_semantics :
    ∀ (id : String) (s : KVState),
    (id ≠ "" → ((getEntries s).1.any fun e => idOf e == id) = false →
      removeEntry id s = (false, (getEntries s).2) ∧
      ((removeEntry id s).2).contents = s.contents ∧
      (s.failures = [] →
        (getEntryCount (removeEntry id s).2).1 = (getEntryCount s).1)) ∧
    (id ≠ "" → storedNoUndef s = true → s.failures = [] →
      (readIds s).Nodup →
      ∀ x ∈ (getEntries s).1, idOf x = id →
      (removeEntry id s).1 = true ∧
      (getEntryById id (removeEntry id s).2).1 = none ∧
      (getEntryCount (removeEntry id s).2).1 + 1 = (getEntryCount s).1) := by
  intro id s
  constructor
  · intro hid hnone
    have hrm := removeEntry_spec_notfound hid hnone
    refine ⟨hrm, ?_, ?_⟩
    · rw [hrm]
      rw [getEntries_snd]
    · intro hf
      rw [hrm, getEntries_snd_of_failures_nil hf]
  · intro hid hsnu hf hnd x hx hxid
    have hallv := getEntries_fst_all_valid s
    have hmem : ((getEntries s).1.any fun e => idOf e == id) = true :=
      List.any_eq_true.mpr ⟨x, hx, by simp [hxid]⟩
    have hrm := removeEntry_spec_found hid hsnu hf hmem
    have hval : validateEntries (.arr ((getEntries s).1.filter
        fun e => idOf e != id)) = true := by
      apply validateEntries_arr
      intro y hy
      exact hallv y (List.mem_of_mem_filter hy)
    refine ⟨by rw [hrm], ?_, ?_⟩
    · rw [hrm]
      rw [getEntryById_fst]
      rw [getEntries_fresh _ _ _ hval]
      apply List.find?_eq_none.mpr
      intro y hy
      have hy' := List.of_mem_filter (mem_sortEntries.mp hy)
      simpa using hy'
    · rw [hrm]
      rw [getEntryCount_fst, getEntryCount_fst]
      rw [getEntries_fresh _ _ _ hval]
      show (sortEntries _).length + 1 = _
      rw [(sortEntries_perm _).length_eq]
      exact filter_ne_length hnd hx hxid

/-- C6 witness: deleting a missing id from a two-entry store fails and keeps
the count at 2; deleting a present id succeeds, the id then reads as absent,
and the count drops from 2 to 1. -/
theorem claim_delete_semantics_witness :
    (removeEntry "z" (sampleState [sampleEntry "a" 1, sampleEntry "b" 2]) =
      (false, (getEntries (sampleState [sampleEntry "a" 1, sampleEntry "b" 2])).2) ∧
     (getEntryCount (removeEntry "z"
        (sampleState [sampleEntry "a" 1, sampleEntry "b" 2])).2).1 =
      (getEntryCount (sampleState [sampleEntry "a" 1, sampleEntry "b" 2])).1) ∧
    ((removeEntry "a" (sampleState [sampleEntry "a" 1, sampleEntry "b" 2])).1 = true ∧
     (getEntryById "a" (removeEntry "a"
        (sampleState [sampleEntry "a" 1, sampleEntry "b" 2])).2).1 = none ∧
     (getEntryCount (removeEntry "a"
        (sampleState [sampleEntry "a" 1, sampleEntry "b" 2])).2).1 + 1 =
      (getEntryCount (sampleState [sampleEntry "a" 1, sampleEntry "b" 2])).1) := by
  constructor
  · have h := (claim_delete_semantics "z"
      (sampleState [sampleEntry "a" 1, sampleEntry "b" 2])).1
      (by decide) (by decide)
    exact ⟨h.1, h.2.2 rfl⟩
  · refine (claim_delete_semantics "a"
      (sampleState [sampleEntry "a" 1, sampleEntry "b" 2])).2
      (by decide) (by decide) rfl (by decide) (sampleEntry "a" 1) ?_ (by decide)
    rw [show (getEntries (sampleState [sampleEntry "a" 1, sampleEntry "b" 2])).1 =
      [sampleEntry "b" 2, sampleEntry "a" 1] from rfl]
    exact List.mem_cons_of_mem _ (List.mem_singleton.mpr rfl)

/-- C7: update semantics.  If no stored entry carries the id of the (valid)
argument, update reports failure without writing.  If one does, in a
duplicate-free collection with no scheduled storage failures, the whole
record is replaced: update succeeds and fetching the id returns exactly the
given entry.  In particular, updating only the `address` field succeeds and
re-reading by id shows the new address with unchanged `id` and `createdAt`. -/
theorem claim_update_semantics :
    ∀ s : KVState,
    (∀ u : JValue, validateEntry u = true →
      ((getEntries s).1.findIdx? fun e => idOf e == idOf u) = none →
      updateEntry u s = (false, (getEntries s).2) ∧
      ((updateEntry u s).2).contents = s.contents) ∧
    (∀ u : JValue, validateEntry u = true → noUndef u = true →
      storedNoUndef s = true → s.failures = [] → (readIds s).Nodup →
      ∀ x ∈ (getEntries s).1, idOf x = idOf u →
      (updateEntry u s).1 = true ∧
      (getEntryById (idOf u) (updateEntry u s).2).1 = some u) ∧
    (∀ (e : JValue) (a : String), storedNoUndef s = true → s.failures = [] →
      (readIds s).Nodup → e ∈ (getEntries s).1 →
      (updateEntry (setField e "address" (.str a)) s).1 = true ∧
      (getEntryById (idOf e)
          (updateEntry (setField e "address" (.str a)) s).2).1 =
        some (setField e "address" (.str a)) ∧
      getField (setField e "address" (.str a)) "address" = .str a ∧
      idOf (setField e "address" (.str a)) = idOf e ∧
      createdAtOf (setField e "address" (.str a)) = createdAtOf e) := by
  intro s
  refine ⟨?_, ?_, ?_⟩
  · intro u hv hfind
    have hup := updateEntry_spec_notfound hv hfind
    refine ⟨hup, ?_⟩
    rw [hup]
    rw [getEntries_snd]
  · intro u hv hnu hsnu hf hnd x hx hxid
    exact updateEntry_found_getById hv hnu hsnu hf hnd hx hxid
  · intro e a hsnu hf hnd he
    have hev := getEntries_fst_all_valid s e he
    have henu := getEntries_fst_all_noUndef hsnu e he
    have hv' := validateEntry_setField_address a hev
    have hnu' : noUndef (setField e "address" (.str a)) = true :=
      noUndef_setField henu rfl
    have hidu : idOf (setField e "address" (.str a)) = idOf e :=
      idOf_setField_address _ hev
    have h := updateEntry_found_getById hv' hnu' hsnu hf hnd he hidu.symm
    refine ⟨h.1, ?_, getField_setField_address _ hev, hidu,
      createdAtOf_setField_address _ hev⟩
    rw [← hidu]
    exact h.2

/-- C7 witness: updating an id with no stored match fails without writing;
rewriting the stored entry's address succeeds and the re-read shows the new
address under the same id and creation time. -/
theorem claim_update_semantics_witness :
    (updateEntry (sampleEntry "z" 1) (sampleState [sampleEntry "a" 5]) =
      (false, (getEntries (sampleState [sampleEntry "a" 5])).2)) ∧
    ((updateEntry (setField (sampleEntry "a" 5) "address" (.str "moved"))
        (sampleState [sampleEntry "a" 5])).1 = true ∧
     (getEntryById (idOf (sampleEntry "a" 5))
        (updateEntry (setField (sampleEntry "a" 5) "address" (.str "moved"))
          (sampleState [sampleEntry "a" 5])).2).1 =
      some (setField (sampleEntry "a" 5) "address" (.str "moved")) ∧
     getField (setField (sampleEntry "a" 5) "address" (.str "moved")) "address" =
      .str "moved" ∧
     idOf (setField (sampleEntry "a" 5) "address" (.str "moved")) =
      idOf (sampleEntry "a" 5) ∧
     createdAtOf (setField (sampleEntry "a" 5) "address" (.str "moved")) =
      createdAtOf (sampleEntry "a" 5)) := by
  constructor
  · exact ((claim_update_semantics (sampleState [sampleEntry "a" 5])).1
      (sampleEntry "z" 1) (by decide) (by decide)).1
  · refine (claim_update_semantics (sampleState [sampleEntry "a" 5])).2.2
      (sampleEntry "a" 5) "moved" (by decide) rfl (by decide) ?_
    rw [show (getEntries (sampleState [sampleEntry "a" 5])).1 =
      [sampleEntry "a" 5] from rfl]
    exact List.mem_singleton.mpr rfl

/-- C1: id uniqueness.  Every successful mutating operation preserves the
pairwise distinctness of the stored ids (insert additionally assumes the
id-generation oracle only produces ids not already stored); and inserting two
valid entries carrying the same initial id yields two stored entries with
distinct ids — the first retains the original id, the second is rewritten to
a freshly generated identifier — with the collection's ids still pairwise
distinct and its size grown by exactly two. -/
theorem claim_mutations_preserve_distinct_ids :
    (∀ (e : JValue) (s : KVState), (∀ n, s.idGen n ∉ storedIds s) →
      (storedIds s).Nodup → (saveEntry e s).1 = true →
      (storedIds (saveEntry e s).2.2).Nodup) ∧
    (∀ (u : JValue) (s : KVState), (storedIds s).Nodup →
      (updateEntry u s).1 = true → (storedIds (updateEntry u s).2).Nodup) ∧
    (∀ (id : String) (s : KVState), (storedIds s).Nodup →
      (removeEntry id s).1 = true → (storedIds (removeEntry id s).2).Nodup) ∧
    (∀ (e₁ e₂ : JValue) (s : KVState),
      validateEntry e₁ = true → validateEntry e₂ = true →
      noUndef e₁ = true → noUndef e₂ = true →
      storedNoUndef s = true → s.failures = [] →
      idOf e₂ = idOf e₁ → idOf e₁ ∉ readIds s → (readIds s).Nodup →
      (∀ n, s.idGen n ∉ readIds s) → (∀ n, s.idGen n ≠ idOf e₁) →
      (saveEntry e₁ s).1 = true ∧
      (saveEntry e₂ (saveEntry e₁ s).2.2).1 = true ∧
      (saveEntry e₁ s).2.1 = e₁ ∧
      idOf (saveEntry e₂ (saveEntry e₁ s).2.2).2.1 ≠ idOf e₁ ∧
      (storedIds (saveEntry e₂ (saveEntry e₁ s).2.2).2.2).Nodup ∧
      idOf e₁ ∈ storedIds (saveEntry e₂ (saveEntry e₁ s).2.2).2.2 ∧
      idOf (saveEntry e₂ (saveEntry e₁ s).2.2).2.1 ∈
        storedIds (saveEntry e₂ (saveEntry e₁ s).2.2).2.2 ∧
      (storedIds (saveEntry e₂ (saveEntry e₁ s).2.2).2.2).length =
        (readIds s).length + 2) :=
  ⟨fun _ _ h₁ h₂ h₃ => saveEntry_preserves_nodup h₁ h₂ h₃,
   fun _ _ h₁ h₂ => updateEntry_preserves_nodup h₁ h₂,
   fun _ _ h₁ h₂ => removeEntry_preserves_nodup h₁ h₂,
   fun _ _ _ hv₁ hv₂ hnu₁ hnu₂ hsnu hf hid hnew hnd hfm hfn =>
     saveEntry_twice_same_id hv₁ hv₂ hnu₁ hnu₂ hsnu hf hid hnew hnd hfm hfn⟩

/-- C1 witness: inserting two entries that both carry id `"a"` into an empty
store succeeds twice, the first keeps `"a"`, the second ends up with a
different id, and the stored ids are pairwise distinct with the count grown
from 0 to 2. -/
theorem claim_mutations_preserve_distinct_ids_witness :
    (saveEntry (sampleEntry "a" 1) emptyState).1 = true ∧
    (saveEntry (sampleEntry "a" 2)
      (saveEntry (sampleEntry "a" 1) emptyState).2.2).1 = true ∧
    (saveEntry (sampleEntry "a" 1) emptyState).2.1 = sampleEntry "a" 1 ∧
    idOf (saveEntry (sampleEntry "a" 2)
      (saveEntry (sampleEntry "a" 1) emptyState).2.2).2.1 ≠
      idOf (sampleEntry "a" 1) ∧
    (storedIds (saveEntry (sampleEntry "a" 2)
      (saveEntry (sampleEntry "a" 1) emptyState).2.2).2.2).Nodup ∧
    idOf (sampleEntry "a" 1) ∈ storedIds (saveEntry (sampleEntry "a" 2)
      (saveEntry (sampleEntry "a" 1) emptyState).2.2).2.2 ∧
    idOf (saveEntry (sampleEntry "a" 2)
      (saveEntry (sampleEntry "a" 1) emptyState).2.2).2.1 ∈
      storedIds (saveEntry (sampleEntry "a" 2)
        (saveEntry (sampleEntry "a" 1) emptyState).2.2).2.2 ∧
    (storedIds (saveEntry (sampleEntry "a" 2)
      (saveEntry (sampleEntry "a" 1) emptyState).2.2).2.2).length =
      (readIds emptyState).length + 2 := by
  refine claim_mutations_preserve_distinct_ids.2.2.2
    (sampleEntry "a" 1) (sampleEntry "a" 2) emptyState
    (by decide) (by decide) (by decide) (by decide) (by decide) rfl
    (by decide) (by decide) (by decide) ?_ ?_
  · intro n
    show "generated-id" ∉ readIds emptyState
    decide
  · intro n
    show "generated-id" ≠ idOf (sampleEntry "a" 1)
    decide
